import Mathlib

/-!
Verification of the cnpy++ NPY codec (cnpy++.cpp / cnpy++.hpp).

The development shallowly embeds the codec at the byte level: a file is a
`List Char` of byte values, header text is built exactly as the C++ code
builds it, and the regex-based dictionary parser is modelled by explicit
leftmost-match scanners equivalent to the regexes used in the source
(`std::regex_search` / `std::cregex_iterator` on the patterns appearing in
cnpy++.cpp).  All functions are executable.

Bytes that the C++ code writes as literal characters are written as plain
character literals; the quote and brace characters and a few raw byte values
are spelled with `Char.ofNat` codes.
-/

namespace Cnpypp

set_option maxRecDepth 100000

/-- The byte 0x7b, the opening brace of the header dictionary. -/
def braceL : Char := Char.ofNat 123

/-- The byte 0x7d, the closing brace of the header dictionary. -/
def braceR : Char := Char.ofNat 125

/-- The byte 0x27, the single-quote character used around dictionary keys. -/
def quoteC : Char := Char.ofNat 39

/-- The byte 0x0a, the newline terminating the padded dictionary. -/
def nlC : Char := Char.ofNat 10

/-- Convert a string literal to its character list. -/
def str (s : String) : List Char := s.toList

/-- cnpy++.cpp:29 `BigEndianTest()`: on a little-endian platform (the model
assumed throughout) it returns the little-endian marker. -/
def BigEndianTestChar : Char := '<'

/-- Memory order of an array (cnpy++.hpp:85). `C` is RowMajor, `Fortran` is
ColumnMajor. -/
inductive MemoryOrder where
  | Fortran : MemoryOrder
  | C : MemoryOrder
deriving DecidableEq, Repr

/-- Helper for `natChars`, structurally recursive on a fuel argument so that
the kernel can evaluate it; the fuel never runs out when it starts at the
number itself. -/
def natCharsAux : Nat → Nat → List Char
  | 0, n => [Char.ofNat (48 + n)]
  | fuel + 1, n =>
    if n < 10 then [Char.ofNat (48 + n)]
    else natCharsAux fuel (n / 10) ++ [Char.ofNat (48 + n % 10)]

/-- `std::to_string` of an unsigned value: decimal digits, most significant
first. -/
def natChars (n : Nat) : List Char := natCharsAux n n

/-- The ", d" pieces appended for every shape entry past the first
(cnpy++.cpp:435-438 / 473-476). -/
def dimsTail : List Nat → List Char
  | [] => []
  | d :: t => ',' :: ' ' :: (natChars d ++ dimsTail t)

/-- The textual form of the shape tuple contents (cnpy++.cpp:434-441):
first dimension, then ", d" for the others, trailing comma for rank 1.
The C++ code reads `shape[0]`, which is out of bounds for an empty shape
(undefined behavior); the model returns `[]` in that unreachable case. -/
def shapeChars : List Nat → List Char
  | [] => []
  | s0 :: rest => natChars s0 ++ dimsTail rest ++ (if rest = [] then [','] else [])

/-- The `fortran_order` literal (cnpy++.cpp:432 / 470). -/
def fortranChars (mo : MemoryOrder) : List Char :=
  if mo = MemoryOrder.C then str "False" else str "True"

/-- The descriptor value of a plain array: `'<X9'` with quote, endian marker,
dtype character and decimal word size (cnpy++.cpp:465-469). -/
def simpleDescrVal (dtype : Char) (wordsize : Nat) : List Char :=
  quoteC :: BigEndianTestChar :: dtype :: (natChars wordsize ++ [quoteC])

/-- One `('label', '<X9')` tuple of a structured descriptor
(cnpy++.cpp:414-420). -/
def tupleChars : List Char × Char × Nat → List Char
  | (lbl, dt, sz) =>
    ['(', quoteC] ++ lbl ++ [quoteC, ',', ' ', quoteC, BigEndianTestChar, dt]
      ++ natChars sz ++ [quoteC, ')']

/-- The tuples of a structured descriptor joined with ", "
(cnpy++.cpp:409-425). -/
def fieldsChars : List (List Char × Char × Nat) → List Char
  | [] => []
  | [f] => tupleChars f
  | f :: g :: t => tupleChars f ++ (',' :: ' ' :: fieldsChars (g :: t))

/-- The bracketed descriptor list of a structured array, with the trailing
comma the code emits for a single field (cnpy++.cpp:401-429). -/
def structDescrVal (fields : List (List Char × Char × Nat)) : List Char :=
  '[' :: (fieldsChars fields ++ (if fields.length = 1 then [','] else []) ++ [']'])

/-- The unpadded dictionary text shared by both `create_npy_header` overloads
(cnpy++.cpp:400-442 / 464-480), parameterized by the descriptor value. -/
def rawDict (descrVal : List Char) (mo : MemoryOrder) (shape : List Nat) : List Char :=
  [braceL, quoteC] ++ str "descr" ++ [quoteC, ':', ' '] ++ descrVal
    ++ ([',', ' ', quoteC] ++ str "fortran_order" ++ [quoteC, ':', ' ']) ++ fortranChars mo
    ++ ([',', ' ', quoteC] ++ str "shape" ++ [quoteC, ':', ' ', '(']) ++ shapeChars shape
    ++ [')', ',', ' ', braceR]

/-- Space padding so that 10 plus the dictionary length is a multiple of 16,
with the last byte replaced by a newline (cnpy++.cpp:444-448 / 482-486).
The computed remainder is always between 1 and 16. -/
def padDict (d : List Char) : List Char :=
  d ++ List.replicate (16 - (10 + d.length) % 16 - 1) ' ' ++ [nlC]

/-- The 10-byte preamble plus dictionary (cnpy++.cpp:450-456 / 488-494):
magic bytes, version 1.0, and the dictionary length as a little-endian
unsigned 16-bit value (the `(uint16_t)` cast truncates modulo 65536). -/
def headerOf (d : List Char) : List Char :=
  [Char.ofNat 0x93] ++ str "NUMPY"
    ++ [Char.ofNat 1, Char.ofNat 0,
        Char.ofNat (d.length % 256), Char.ofNat (d.length % 65536 / 256)]
    ++ d

/-- `create_npy_header(shape, dtype, wordsize, memory_order)`
(cnpy++.cpp:461-497), the single-type overload. -/
def create_npy_header (shape : List Nat) (dtype : Char) (wordsize : Nat)
    (mo : MemoryOrder) : List Char :=
  headerOf (padDict (rawDict (simpleDescrVal dtype wordsize) mo shape))

/-- `create_npy_header(shape, labels, dtypes, sizes, memory_order)`
(cnpy++.cpp:394-459), the structured overload.  Throwing is modelled by
`Except.error`. -/
def create_npy_header_structured (shape : List Nat) (labels : List (List Char))
    (dtypes : List Char) (sizes : List Nat) (mo : MemoryOrder) :
    Except String (List Char) :=
  if labels.length ≠ dtypes.length ∨ dtypes.length ≠ sizes.length
      ∨ sizes.length ≠ labels.length then
    .error "create_npy_header: sizes of argument vectors not equal"
  else
    .ok (headerOf (padDict (rawDict (structDescrVal (labels.zip (dtypes.zip sizes)))
      mo shape)))

/-- The regex word character class `\w`. -/
def wordChar (c : Char) : Bool := c.isAlphanum || c = '_'

/-- The character class `[a-zA-z]` appearing (sic) in the descriptor regexes
of cnpy++.cpp:48 and cnpy++.cpp:171: lowercase letters plus the ASCII range
from `A` to `z`. -/
def letterClass (c : Char) : Bool := ('a' ≤ c && c ≤ 'z') || ('A' ≤ c && c ≤ 'z')

/-- Numeric value of a digit string, as `std::stoi` computes it. -/
def stoiNat (ds : List Char) : Nat :=
  ds.foldl (fun a c => 10 * a + (c.toNat - 48)) 0

/-- `std::stoi` on a digit run: throws `std::out_of_range` when the value
exceeds `INT_MAX`. -/
def stoiInt (ds : List Char) : Except String Nat :=
  if stoiNat ds ≤ 2147483647 then .ok (stoiNat ds) else .error "stoi: out of range"

/-- One-pass collection of the maximal digit runs; `acc` holds the digits of
the current run in reverse. -/
def digitRunsAux : List Char → List Char → List (List Char)
  | [], acc => if acc.isEmpty then [] else [acc.reverse]
  | c :: t, acc =>
    if c.isDigit then digitRunsAux t (c :: acc)
    else if acc.isEmpty then digitRunsAux t [] else acc.reverse :: digitRunsAux t []

/-- The maximal digit runs of a string, in order: what iterating the regex
`\d+` over the string yields (cnpy++.cpp:149-157). -/
def digitRuns (s : List Char) : List (List Char) := digitRunsAux s []

/-- Leftmost-match search: try the matcher at every position, left to right,
and return the first success.  This is the semantics of `std::regex_search`
for the deterministic patterns used by the parser. -/
def scanFirst (m : List Char → Option α) : List Char → Option α
  | [] => none
  | c :: t =>
    match m (c :: t) with
    | some v => some v
    | none => scanFirst m t

/-- `std::string_view::find(pat)`: index of the first occurrence of `pat`. -/
def firstOccurIdx (pat : List Char) : List Char → Option Nat
  | [] => if pat.isPrefixOf ([] : List Char) then some 0 else none
  | c :: t =>
    if pat.isPrefixOf (c :: t) then some 0
    else (firstOccurIdx pat t).map (· + 1)

/-- `std::string_view::find(ch, pos)`: index of the first occurrence of a
character at or after `pos`. -/
def findCharFrom (ch : Char) (s : List Char) (pos : Nat) : Option Nat :=
  (firstOccurIdx [ch] (s.drop pos)).map (· + pos)

/-- The search key `'fortran_order': ` followed by `True`. -/
def truePat : List Char := quoteC :: str "fortran_order" ++ [quoteC, ':', ' '] ++ str "True"

/-- The search key `'fortran_order': ` followed by `False`. -/
def falsePat : List Char := quoteC :: str "fortran_order" ++ [quoteC, ':', ' '] ++ str "False"

/-- Matcher for the regex `'fortran_order': (True|False)` at one position
(cnpy++.cpp:123-130). -/
def fortranMatch (s : List Char) : Option Bool :=
  if truePat.isPrefixOf s then some true
  else if falsePat.isPrefixOf s then some false
  else none

/-- The search key `'shape': (` (cnpy++.cpp:139). -/
def shapeKey : List Char := quoteC :: str "shape" ++ [quoteC, ':', ' ', '(']

/-- The search key `'descr': ` (cnpy++.cpp:161). -/
def descrKey : List Char := quoteC :: str "descr" ++ [quoteC, ':', ' ']

/-- Matcher for the single-type descriptor regex `'([<>|])([a-zA-z])(\d+)'`
(cnpy++.cpp:171) at one position: quote, endian marker, class character,
a nonempty maximal digit run, quote.  Greedy matching of `\d+` followed by
a literal quote is equivalent to the backtracking regex because a digit can
never match the quote. -/
def simpleDescrMatch (s : List Char) : Option (Char × Char × List Char) :=
  match s with
  | q :: e :: c :: r =>
    if q = quoteC ∧ (e = '<' ∨ e = '>' ∨ e = '|') ∧ letterClass c then
      match r.takeWhile Char.isDigit, r.dropWhile Char.isDigit with
      | [], _ => none
      | ds, q2 :: _ => if q2 = quoteC then some (e, c, ds) else none
      | _, [] => none
    else none
  | _ => none

/-- Matcher for the structured-descriptor tuple regex
`\('(\w+)', '([<>|])([a-zA-z])(\d+)'\)` (cnpy++.cpp:47-48) at one position.
Returns label, endian marker, class character and digit run; the match
consumes `label.length + digits.length + 10` characters. -/
def matchTuple (s : List Char) : Option (List Char × Char × Char × List Char) :=
  match s with
  | p :: q :: r =>
    if p = '(' ∧ q = quoteC then
      match r.takeWhile wordChar, r.dropWhile wordChar with
      | [], _ => none
      | lbl, q1 :: co :: sp :: q2 :: e :: c :: r2 =>
        if q1 = quoteC ∧ co = ',' ∧ sp = ' ' ∧ q2 = quoteC
            ∧ (e = '<' ∨ e = '>' ∨ e = '|') ∧ letterClass c then
          match r2.takeWhile Char.isDigit, r2.dropWhile Char.isDigit with
          | [], _ => none
          | ds, q3 :: rp :: _ =>
            if q3 = quoteC ∧ rp = ')' then some (lbl, e, c, ds) else none
          | _, _ => none
        else none
      | _, _ => none
    else none
  | _ => none

/-- Helper for `tupleScan`, structurally recursive on a fuel argument (each
step consumes at least one character, so fuel equal to the length of the
scanned range suffices). -/
def tupleScanAux : Nat → List Char → List (List Char × Char × Char × List Char)
  | 0, _ => []
  | fuel + 1, s =>
    match matchTuple s with
    | some (lbl, e, c, ds) =>
      (lbl, e, c, ds) :: tupleScanAux fuel (s.drop (lbl.length + ds.length + 10))
    | none =>
      match s with
      | [] => []
      | _ :: t => tupleScanAux fuel t

/-- Iterating the tuple regex over a range (`std::cregex_iterator`,
cnpy++.cpp:189-205): successive leftmost matches, each search resuming
right after the previous match. -/
def tupleScan (s : List Char) : List (List Char × Char × Char × List Char) :=
  tupleScanAux s.length s

/-- Per-tuple processing of the structured branch (cnpy++.cpp:194-205):
in match order, record the label, reject a big-endian marker, then convert
the width with `std::stoi`. -/
def buildFields : List (List Char × Char × Char × List Char) →
    Except String (List Nat × List Char × List (List Char))
  | [] => .ok ([], [], [])
  | (lbl, e, c, ds) :: t =>
    if e = '>' then
      .error "parse_npy_header: data stored in big-endian format (not supported)"
    else
      match stoiInt ds with
      | .error er => .error er
      | .ok w =>
        match buildFields t with
        | .error er => .error er
        | .ok (ws, cs, ls) => .ok (w :: ws, c :: cs, lbl :: ls)

/-- The result of parsing a header dictionary. -/
structure ParsedDict where
  word_sizes : List Nat
  data_types : List Char
  labels : List (List Char)
  shape : List Nat
  memory_order : MemoryOrder
deriving DecidableEq, Repr

/-- `parse_npy_dict` (cnpy++.cpp:109-211): terminator and brace checks,
`fortran_order` search, shape digit extraction between `'shape': (` and the
next `)`, then the descriptor (single quoted string or bracketed tuple
list). -/
def parse_npy_dict (buffer : List Char) : Except String ParsedDict :=
  if buffer.getLast? ≠ some nlC then
    .error "invalid header: missing terminating newline"
  else if buffer.head? ≠ some braceL then
    .error "invalid header: malformed dictionary"
  else
    match scanFirst fortranMatch buffer with
    | none => .error "invalid header: missing fortran_order"
    | some isFortran =>
      match firstOccurIdx shapeKey buffer with
      | none => .error "invalid header: missing shape"
      | some pss =>
        match findCharFrom ')' buffer pss with
        | none => .error "invalid header: malformed dictionary"
        | some pes =>
          match (digitRuns ((buffer.drop pss).take (pes - pss))).mapM stoiInt with
          | .error er => .error er
          | .ok shape =>
            match firstOccurIdx descrKey buffer with
            | none => .error "invalid header: missing descr"
            | some psd =>
              if buffer.getD (psd + descrKey.length) ' ' = quoteC then
                match scanFirst simpleDescrMatch (buffer.drop psd) with
                | none => .error "parse_npy_header: could not parse data type descriptor"
                | some (e, c, ds) =>
                  if e = '>' then
                    .error "parse_npy_header: data stored in big-endian format (not supported)"
                  else
                    match stoiInt ds with
                    | .error er => .error er
                    | .ok w =>
                      .ok ⟨[w], [c], [], shape,
                        if isFortran then MemoryOrder.Fortran else MemoryOrder.C⟩
              else if buffer.getD (psd + descrKey.length) ' ' = '[' then
                match findCharFrom ']' buffer (psd + descrKey.length) with
                | none => .error "invalid header: malformed list in descr"
                | some pel =>
                  match buildFields (tupleScan ((buffer.drop (psd + descrKey.length)).take
                      (pel - (psd + descrKey.length)))) with
                  | .error er => .error er
                  | .ok (ws, cs, ls) =>
                    .ok ⟨ws, cs, ls, shape,
                      if isFortran then MemoryOrder.Fortran else MemoryOrder.C⟩
              else .error "invalid header: malformed descr"

/-- The magic bytes `\x93NUMPY`. -/
def magicChars : List Char := Char.ofNat 0x93 :: str "NUMPY"

/-- The raw-buffer overload `parse_npy_header(char const*, ...)`
(cnpy++.cpp:50-70): reads versions at offsets 6 and 7 and the little-endian
16-bit dictionary length at offsets 8-9, checks only the version, and parses
the dictionary.  It performs no magic-string comparison. -/
def parse_npy_header_buffer (buffer : List Char) : Except String ParsedDict :=
  if ¬ (buffer.getD 6 (Char.ofNat 0) = Char.ofNat 1 ∧
        buffer.getD 7 (Char.ofNat 0) = Char.ofNat 0) then
    .error "parse_npy_header: version not supported"
  else
    parse_npy_dict ((buffer.drop 10).take
      ((buffer.getD 8 (Char.ofNat 0)).toNat + 256 * (buffer.getD 9 (Char.ofNat 0)).toNat))

/-- The stream overload `parse_npy_header(std::istream&, ...)`
(cnpy++.cpp:74-107): reads 10 bytes, compares the magic string, checks the
version, reads the dictionary and parses it.  The returned number is the
stream position after the header, `10 + header_len`. -/
def parse_npy_header (contents : List Char) : Except String (ParsedDict × Nat) :=
  if ¬ magicChars.isPrefixOf contents then
    .error "parse_npy_header: NPY magic string not found"
  else if ¬ (contents.getD 6 (Char.ofNat 0) = Char.ofNat 1 ∧
             contents.getD 7 (Char.ofNat 0) = Char.ofNat 0) then
    .error "parse_npy_header: NPY format version not supported"
  else
    match parse_npy_dict ((contents.drop 10).take
        ((contents.getD 8 (Char.ofNat 0)).toNat
          + 256 * (contents.getD 9 (Char.ofNat 0)).toNat)) with
    | .error er => .error er
    | .ok pd =>
      .ok (pd, 10 + ((contents.getD 8 (Char.ofNat 0)).toNat
        + 256 * (contents.getD 9 (Char.ofNat 0)).toNat))

/-- The value object returned by the load paths (cnpy++.hpp:92): metadata
plus the owned payload bytes. -/
structure NpyArrayModel where
  shape : List Nat
  word_sizes : List Nat
  labels : List (List Char)
  memory_order : MemoryOrder
  data : List Char
deriving DecidableEq, Repr

/-- `num_vals` as computed by `NpyArray`'s constructor and `npy_load`
(`std::accumulate` with `std::multiplies`). -/
def NpyArrayModel.num_vals (a : NpyArrayModel) : Nat := a.shape.foldl (· * ·) 1

/-- `total_value_size` as computed by `NpyArray`'s constructor and
`npy_load` (`std::accumulate` with `std::plus`). -/
def NpyArrayModel.total_value_size (a : NpyArrayModel) : Nat :=
  a.word_sizes.foldl (· + ·) 0

/-- `npy_load` (cnpy++.cpp:360-392) on the byte contents of a file:
parse the header, then read `total_value_size * num_vals` payload bytes from
the position after the header.  The memory-mapped variant reads the same
bytes from the same offset. -/
def npy_load (contents : List Char) : Except String NpyArrayModel :=
  match parse_npy_header contents with
  | .error er => .error er
  | .ok (pd, consumed) =>
    .ok ⟨pd.shape, pd.word_sizes, pd.labels, pd.memory_order,
      (contents.drop consumed).take
        ((pd.word_sizes.foldl (· + ·) 0) * (pd.shape.foldl (· * ·) 1))⟩

/-- `npy_save` in mode "w" (cnpy++.hpp:476-492, fresh-file branch): the
resulting file is the generated header followed by the payload bytes that
`write_data` emits (`num_elements * sizeof(value_type)` raw bytes). -/
def npy_save_w (shape : List Nat) (dtype : Char) (wordsize : Nat)
    (mo : MemoryOrder) (payload : List Char) : List Char :=
  create_npy_header shape dtype wordsize mo ++ payload

/-- The structured `npy_save` in mode "w" (cnpy++.hpp:676-767, fresh-file
branch): header from labels/dtypes/sizes, payload from `write_data_tuple`
(each record is its fields' bytes packed back to back). -/
def npy_save_structured_w (shape : List Nat) (labels : List (List Char))
    (dtypes : List Char) (sizes : List Nat) (mo : MemoryOrder)
    (payload : List Char) : Except String (List Char) :=
  match create_npy_header_structured shape labels dtypes sizes mo with
  | .error er => .error er
  | .ok h => .ok (h ++ payload)

/-- `back()` of a nonempty dimension list, `0` for the empty list (where the
C++ call would be out of bounds). -/
def lastD : List Nat → Nat
  | [] => 0
  | [x] => x
  | _ :: x :: t => lastD (x :: t)

/-- `l.back() += v` on a dimension vector. -/
def addToLast (v : Nat) : List Nat → List Nat
  | [] => []
  | [x] => [x + v]
  | x :: y :: t => x :: addToLast v (y :: t)

/-- The plain `npy_save` in mode "a" on an existing file
(cnpy++.hpp:432-493): parse the existing header; validate element size, type
code, memory order, rank, and the dimensions past the first
(`std::equal(std::next(shape.begin()), shape.end(), ...)`, regardless of
memory order); grow the first dimension (RowMajor) or the last (Fortran);
regenerate the header, overwrite it at offset 0, and append the payload at
the end.  Every throw happens before any write, so an error leaves the file
bytes untouched. -/
def npy_save_append (file : List Char) (dtype : Char) (wordsize : Nat)
    (mo : MemoryOrder) (shape : List Nat) (payload : List Char) :
    Except String (List Char) :=
  match parse_npy_header file with
  | .error er => .error er
  | .ok (pd, _) =>
    match pd.word_sizes with
    | [] => .error "vector::at out of range"
    | w0 :: _ =>
      if wordsize ≠ w0 then
        .error "npy_save(): appending failed: element size not matching"
      else
        match pd.data_types with
        | [] => .error "vector::at out of range"
        | t0 :: _ =>
          if dtype ≠ t0 then
            .error "npy_save(): appending failed: data type descriptor not matching"
          else if mo ≠ pd.memory_order then
            .error "npy_save(): memory order does not match"
          else if pd.shape.length ≠ shape.length then
            .error "npy_save: ranks not matching"
          else if shape.drop 1 ≠ pd.shape.drop 1 then
            .error "npy_save attempting to append misshaped data"
          else
            match shape, pd.shape with
            | s0 :: _, e0 :: erest =>
              let newShape :=
                if mo = MemoryOrder.C then (e0 + s0) :: erest
                else addToLast (lastD shape) (e0 :: erest)
              let header := create_npy_header newShape dtype wordsize mo
              .ok (header ++ file.drop header.length ++ payload)
            | _, _ =>
              .error "front() on empty shape: undefined behavior"

/-- The bytes of the target file after a plain append attempt: unchanged when
the call throws (all validation precedes any write), the rewritten contents
otherwise. -/
def appended_file (file : List Char) (dtype : Char) (wordsize : Nat)
    (mo : MemoryOrder) (shape : List Nat) (payload : List Char) : List Char :=
  match npy_save_append file dtype wordsize mo shape payload with
  | .error _ => file
  | .ok f => f

/-- `NpyArray::tuple_range` (cnpy++.hpp:153-168): when `force_check` is set
and the requested element sizes differ from the stored word sizes
(`compare_word_sizes`, cnpy++.hpp:255-261, range equality), throw; otherwise
hand out the byte range `[0, num_vals * total_value_size)` of the buffer
with no validation.  The requested tuple types are represented by their
element-size list. -/
def tuple_range (a : NpyArrayModel) (requested : List Nat)
    (force_check : Bool := false) : Except String (Nat × Nat) :=
  if force_check ∧ ¬ (requested = a.word_sizes) then
    .error "tuple_range: word sizes do not match requested types"
  else
    .ok (0, a.num_vals * a.total_value_size)

/-- `NpyArray::column_range` (cnpy++.hpp:184-214): locate the label, throw if
absent; throw if the stored word size at that index differs from the
requested type's size; otherwise return (offset, end, stride) of the strided
view. -/
def column_range (a : NpyArrayModel) (name : List Char) (sizeofT : Nat) :
    Except String (Nat × Nat × Nat) :=
  match a.labels.findIdx? (· = name) with
  | none => .error "column_range: name not found in labels"
  | some d =>
    match a.word_sizes.get? d with
    | none => .error "vector::at out of range"
    | some wd =>
      if wd ≠ sizeofT then
        .error "column_range: word sizes of requested type and data do not match"
      else
        let offset := (a.word_sizes.take d).foldl (· + ·) 0
        .ok (offset, offset + a.total_value_size * a.num_vals,
          a.total_value_size)

/-- Wrap-around subtraction on `size_t` values (64-bit). -/
def sub64 (a b : Nat) : Nat := (a + (2 ^ 64 - b % 2 ^ 64)) % 2 ^ 64

/-- `std::copy_n` from a byte vector starting at `start`: reading past the
end of the vector is undefined behavior in the C++ code; the model supplies
zero bytes for the out-of-range positions so that the copied count always
equals `cnt`, as it does for the pointer arithmetic in the source. -/
def readBytes (l : List Char) (start cnt : Nat) : List Char :=
  (l.drop start).take cnt ++ List.replicate (cnt - (l.length - start)) (Char.ofNat 0)

/-- What one invocation of the data-producing closure passed to
`additional_parameters` yields: the bytes placed directly in the sink
buffer, an optional element deposited into the side buffer
(`parameters->buffer`, setting `parameters->buffer_size`), and the updated
closure state. -/
structure ProducerResult (σ : Type) where
  out : List Char
  deposit : Option (List Char)
  nextState : σ

/-- The state carried by `additional_parameters` (cnpy++.hpp:63-77) together
with the producer closure's own state. -/
structure StreamState (σ : Type) where
  npyheader : List Char
  header_bytes_remaining : Nat
  buffer_capacity : Nat
  buffer : List Char
  buffer_size : Nat
  bytes_buffer_written : Nat
  prodState : σ

/-- The `ZIP_SOURCE_READ` case of `npzwrite_source_callback`
(cnpy++.cpp:705-739) for a pull request of `length` bytes: first the header
phase, copying `min(length, npyheader.size())` bytes from offset
`npyheader.size() - header_bytes_remaining` and subtracting that count from
`header_bytes_remaining` (`size_t` arithmetic, so the subtraction wraps);
then, only if no header bytes remain, the side-buffer drain and the producer
call.  Returns the bytes written to the sink and the updated state. -/
def sourceRead (func : Nat → σ → ProducerResult σ) (st : StreamState σ)
    (length : Nat) : List Char × StreamState σ :=
  let step1 :=
    if st.header_bytes_remaining ≠ 0 then
      let tbw := min length st.npyheader.length
      let start := sub64 st.npyheader.length st.header_bytes_remaining
      (readBytes st.npyheader start tbw,
        { st with header_bytes_remaining := sub64 st.header_bytes_remaining tbw })
    else ([], st)
  let o1 := step1.1
  let st1 := step1.2
  if st1.header_bytes_remaining = 0 then
    let buffer_tbw := st1.buffer_size - st1.bytes_buffer_written
    let n := min buffer_tbw (length - o1.length)
    let o2 := (st1.buffer.drop st1.bytes_buffer_written).take n
    let st2 := { st1 with bytes_buffer_written := st1.bytes_buffer_written + n }
    if st2.bytes_buffer_written = st2.buffer_size then
      let st3 := { st2 with bytes_buffer_written := 0, buffer_size := 0 }
      let pr := func (length - o1.length - o2.length) st3.prodState
      let st4 :=
        match pr.deposit with
        | some dep =>
          { st3 with buffer := dep, buffer_size := dep.length, prodState := pr.nextState }
        | none => { st3 with prodState := pr.nextState }
      (o1 ++ o2 ++ pr.out, st4)
    else (o1 ++ o2, st2)
  else (o1, st1)

/-- The iterator state captured by the plain `npz_save` callback
(cnpy++.hpp:535-561): elements not yet produced (each a `wordsize`-byte
record) and the running count `elements_written_total`. -/
structure PlainProducerState where
  written_total : Nat
  elements : List (List Char)

/-- The plain `npz_save` producer lambda (cnpy++.hpp:535-561): fill as many
whole elements as fit the remaining space, and if space is left over while
elements remain, produce one extra element into the side buffer. -/
def plainProducer (wordsize nels : Nat) (space : Nat) (ps : PlainProducerState) :
    ProducerResult PlainProducerState :=
  let n_tbw := min (space / wordsize) (nels - ps.written_total)
  let outBytes := (ps.elements.take n_tbw).flatten
  let ps2 : PlainProducerState :=
    ⟨ps.written_total + n_tbw, ps.elements.drop n_tbw⟩
  if ps2.written_total < nels ∧ space > wordsize * n_tbw then
    { out := outBytes, deposit := some (ps2.elements.headD []),
      nextState := ⟨ps2.written_total + 1, ps2.elements.drop 1⟩ }
  else
    { out := outBytes, deposit := none, nextState := ps2 }

/-- The initial `additional_parameters` state built by `npz_save`
(cnpy++.hpp:563-565): the full header pending, an empty side buffer of
capacity `wordsize`. -/
def initialStreamState (header : List Char) (wordsize : Nat)
    (ps : PlainProducerState) : StreamState PlainProducerState :=
  ⟨header, header.length, wordsize, [], 0, 0, ps⟩

/-- The endian markers that the descriptor scan of `parse_npy_dict` matches:
the single marker of a plain descriptor, or the markers of every matched
tuple of a structured descriptor list.  Mirrors the scrutinees of
cnpy++.cpp:161-210. -/
def descrEndianMarkers (buffer : List Char) : List Char :=
  match firstOccurIdx descrKey buffer with
  | none => []
  | some psd =>
    if buffer.getD (psd + descrKey.length) ' ' = quoteC then
      match scanFirst simpleDescrMatch (buffer.drop psd) with
      | some (e, _, _) => [e]
      | none => []
    else if buffer.getD (psd + descrKey.length) ' ' = '[' then
      match findCharFrom ']' buffer (psd + descrKey.length) with
      | none => []
      | some pel =>
        (tupleScan ((buffer.drop (psd + descrKey.length)).take
          (pel - (psd + descrKey.length)))).map (fun t => t.2.1)
    else []

/-- A header dictionary whose `descr` value starts with a quote, so that
`parse_npy_dict` takes the plain (non-structured) branch
(cnpy++.cpp:166). -/
def isSimpleDescr (buffer : List Char) : Prop :=
  ∃ psd, firstOccurIdx descrKey buffer = some psd ∧
    buffer.getD (psd + descrKey.length) ' ' = quoteC

/-- The generated dictionary text decomposed into its fixed literals and
its variable parts (descriptor value `dv`, boolean text `tf`, shape text
`sc`, and the closing text plus padding `tl`).  `padDict (rawDict dv mo
shape)` has exactly this form; the decomposition drives the parser
proofs. -/
def dictParts (dv tf sc tl : List Char) : List Char :=
  ([braceL, quoteC] ++ str "descr" ++ [quoteC, ':', ' ']) ++ dv
    ++ ([',', ' ', quoteC] ++ str "fortran_order" ++ [quoteC, ':', ' ']) ++ tf
    ++ ([',', ' ', quoteC] ++ str "shape" ++ [quoteC, ':', ' ', '(']) ++ sc ++ tl

/-- The text following the shape tuple in a padded dictionary: the closing
characters, the space padding and the final newline. -/
def dictClose (n : Nat) : List Char :=
  [')', ',', ' ', braceR] ++ List.replicate (16 - (10 + n) % 16 - 1) ' ' ++ [nlC]

/-! ## Concrete streaming-writer instance

An 80-byte header (shape `(1,)`, dtype `<i4`) with a single 4-byte element,
pulled by the archive sink in 48-byte requests. -/

/-- The header of the concrete streaming example: 80 bytes. -/
def c6header : List Char := create_npy_header [1] 'i' 4 MemoryOrder.C

/-- The first 48-byte pull against the freshly initialized state. -/
def c6pull1 : List Char × StreamState PlainProducerState :=
  sourceRead (plainProducer 4 1)
    (initialStreamState c6header 4 ⟨0, [['w', 'x', 'y', 'z']]⟩) 48

/-- The second 48-byte pull. -/
def c6pull2 : List Char × StreamState PlainProducerState :=
  sourceRead (plainProducer 4 1) c6pull1.2 48

/-! ## General lemmas about the padded header -/

theorem padDict_length_mod (d : List Char) : (10 + (padDict d).length) % 16 = 0 := by
  simp only [padDict, List.length_append, List.length_replicate, List.length_cons,
    List.length_nil]
  omega

theorem padDict_getLast (d : List Char) : (padDict d).getLast? = some nlC := by
  rw [padDict, List.getLast?_concat]

theorem padDict_ne_nil (d : List Char) : padDict d ≠ [] := by
  simp [padDict]

theorem headerOf_length (d : List Char) : (headerOf d).length = 10 + d.length := by
  simp [headerOf, str]
  omega

theorem headerOf_getD_last (d : List Char) (hd : d ≠ []) :
    (headerOf d).getD (10 + d.length - 1) ' ' = d.getLast?.getD ' ' := by
  have hlen : 0 < d.length := List.length_pos.mpr hd
  rw [List.getD_eq_getElem?_getD, List.getLast?_eq_getElem?]
  have hsplit : headerOf d =
      ([Char.ofNat 0x93] ++ str "NUMPY"
        ++ [Char.ofNat 1, Char.ofNat 0,
            Char.ofNat (d.length % 256), Char.ofNat (d.length % 65536 / 256)]) ++ d := by
    simp [headerOf]
  have hpre : ([Char.ofNat 0x93] ++ str "NUMPY"
      ++ [Char.ofNat 1, Char.ofNat 0,
          Char.ofNat (d.length % 256), Char.ofNat (d.length % 65536 / 256)]).length = 10 := by
    simp [str]
  rw [hsplit, List.getElem?_append_right (by omega), hpre]
  have : 10 + d.length - 1 - 10 = d.length - 1 := by omega
  rw [this]

/-- C2: for every shape, dtype code, word size and memory order, both
`create_npy_header` overloads produce a header whose preamble length (10)
plus dictionary length is a multiple of 16, and whose byte at position
`10 + dictionary_length - 1` (the final dictionary byte) is a newline. -/
theorem create_npy_header_padding :
    (∀ (shape : List Nat) (dtype : Char) (wordsize : Nat) (mo : MemoryOrder),
      shape ≠ [] →
      (10 + (padDict (rawDict (simpleDescrVal dtype wordsize) mo shape)).length) % 16 = 0 ∧
      (create_npy_header shape dtype wordsize mo).getD
        (10 + (padDict (rawDict (simpleDescrVal dtype wordsize) mo shape)).length - 1) ' '
        = nlC) ∧
    (∀ (shape : List Nat) (labels : List (List Char)) (dtypes : List Char)
      (sizes : List Nat) (mo : MemoryOrder) (h : List Char),
      shape ≠ [] →
      create_npy_header_structured shape labels dtypes sizes mo = .ok h →
      ∃ d, h = headerOf (padDict d) ∧ (10 + (padDict d).length) % 16 = 0 ∧
        h.getD (10 + (padDict d).length - 1) ' ' = nlC) := by
  constructor
  · intro shape dtype wordsize mo _
    refine ⟨padDict_length_mod _, ?_⟩
    rw [create_npy_header, headerOf_getD_last _ (padDict_ne_nil _), padDict_getLast]
    rfl
  · intro shape labels dtypes sizes mo h _ hok
    rw [create_npy_header_structured] at hok
    split at hok
    · exact absurd hok (by simp)
    · refine ⟨rawDict (structDescrVal (labels.zip (dtypes.zip sizes))) mo shape, ?_, ?_, ?_⟩
      · exact (Except.ok.injEq _ _ ▸ hok).symm
      · exact padDict_length_mod _
      · cases hok
        rw [headerOf_getD_last _ (padDict_ne_nil _), padDict_getLast]
        rfl

/-- C2 witness: the padding invariant at a concrete shape, dtype and word
size, for both overloads. -/
theorem create_npy_header_padding_witness :
    ((10 + (padDict (rawDict (simpleDescrVal 'i' 4) MemoryOrder.C [3])).length) % 16 = 0 ∧
      (create_npy_header [3] 'i' 4 MemoryOrder.C).getD
        (10 + (padDict (rawDict (simpleDescrVal 'i' 4) MemoryOrder.C [3])).length - 1) ' '
        = nlC) ∧
    (∃ d, headerOf (padDict (rawDict (structDescrVal ([str "a"].zip (['i'].zip [4])))
        MemoryOrder.Fortran [2, 5])) = headerOf (padDict d) ∧
      (10 + (padDict d).length) % 16 = 0 ∧
      (headerOf (padDict (rawDict (structDescrVal ([str "a"].zip (['i'].zip [4])))
        MemoryOrder.Fortran [2, 5]))).getD (10 + (padDict d).length - 1) ' ' = nlC) :=
  ⟨create_npy_header_padding.1 [3] 'i' 4 MemoryOrder.C (by decide),
    create_npy_header_padding.2 [2, 5] [str "a"] ['i'] [4] MemoryOrder.Fortran _
      (by decide) (by rfl)⟩

/-- C10: `tuple_range` validates the requested element widths only when
`force_check` is true: with `force_check` and mismatched widths it throws,
while with the default `force_check = false` it returns the tuple view with
no width check at all; `column_range`, in contrast, always rejects a
requested width that differs from the stored one. -/
theorem tuple_range_force_check_only :
    (∀ (a : NpyArrayModel) (requested : List Nat), requested ≠ a.word_sizes →
      tuple_range a requested true =
        .error "tuple_range: word sizes do not match requested types") ∧
    (∀ (a : NpyArrayModel) (requested : List Nat),
      tuple_range a requested false = .ok (0, a.num_vals * a.total_value_size)) ∧
    (∀ (a : NpyArrayModel) (name : List Char) (sizeofT : Nat) (d : Nat) (wd : Nat),
      a.labels.findIdx? (· = name) = some d → a.word_sizes[d]? = some wd →
      wd ≠ sizeofT →
      column_range a name sizeofT =
        .error "column_range: word sizes of requested type and data do not match") := by
  refine ⟨?_, ?_, ?_⟩
  · intro a requested hne
    rw [tuple_range, if_pos ⟨rfl, hne⟩]
  · intro a requested
    rw [tuple_range, if_neg (by simp)]
  · intro a name sizeofT d wd hfind hget hne
    simp [column_range, hfind, hget, hne]

/-- C10 witness: a concrete two-field array where the unchecked
`tuple_range` hands out a view despite mismatched widths, the checked one
throws, and `column_range` throws on a width mismatch. -/
theorem tuple_range_force_check_only_witness :
    tuple_range ⟨[3], [4, 1], [str "x", str "y"], MemoryOrder.C,
        List.replicate 15 'z'⟩ [8, 8] true =
      .error "tuple_range: word sizes do not match requested types" ∧
    tuple_range ⟨[3], [4, 1], [str "x", str "y"], MemoryOrder.C,
        List.replicate 15 'z'⟩ [8, 8] false = .ok (0, 15) ∧
    column_range ⟨[3], [4, 1], [str "x", str "y"], MemoryOrder.C,
        List.replicate 15 'z'⟩ (str "y") 8 =
      .error "column_range: word sizes of requested type and data do not match" := by
  refine ⟨tuple_range_force_check_only.1 _ [8, 8] (by decide), ?_, ?_⟩
  · have h := tuple_range_force_check_only.2.1 ⟨[3], [4, 1], [str "x", str "y"],
      MemoryOrder.C, List.replicate 15 'z'⟩ [8, 8]
    rw [h]
    rfl
  · exact tuple_range_force_check_only.2.2 _ (str "y") 8 1 1 (by decide) (by decide)
      (by decide)

/-! ## Append validation (C4, C5) -/

/-- C4 (amended): on an existing parseable NPY file, an append whose data
mismatches the element byte width, the type code, the memory order, the
rank, or any dimension past the first (the set the code actually compares,
regardless of memory order) fails with an error, and the bytes of the file
are left exactly unchanged, all validation preceding any write.  (A
ColumnMajor mismatch in the first dimension — a non-growth dimension for
that order — is not detected; see the counterexample.) -/
theorem append_mismatch_fails :
    ∀ (file : List Char) (pd : ParsedDict) (n : Nat) (dtype : Char) (wordsize : Nat)
      (mo : MemoryOrder) (shape : List Nat) (payload : List Char),
      parse_npy_header file = .ok (pd, n) →
      (pd.word_sizes.head? ≠ some wordsize ∨ pd.data_types.head? ≠ some dtype ∨
        mo ≠ pd.memory_order ∨ pd.shape.length ≠ shape.length ∨
        shape.drop 1 ≠ pd.shape.drop 1) →
      (npy_save_append file dtype wordsize mo shape payload).isOk = false ∧
      appended_file file dtype wordsize mo shape payload = file := by
  intro file pd n dtype wordsize mo shape payload hparse hmis
  have hok : ∀ f, npy_save_append file dtype wordsize mo shape payload ≠ .ok f := by
    intro f hf
    rw [npy_save_append, hparse] at hf
    split at hf
    next er heq => exact absurd heq (by simp)
    next pd2 c2 heq =>
    injection heq with heq1
    injection heq1 with heqpd heqn
    subst heqpd
    subst heqn
    split at hf
    next heqws => exact absurd hf (by simp)
    next w0 wrest heqws =>
    split at hf
    next => exact absurd hf (by simp)
    next hw =>
    split at hf
    next heqdt => exact absurd hf (by simp)
    next t0 trest heqdt =>
    split at hf
    next => exact absurd hf (by simp)
    next hd =>
    split at hf
    next => exact absurd hf (by simp)
    next ho =>
    split at hf
    next => exact absurd hf (by simp)
    next hr =>
    split at hf
    next => exact absurd hf (by simp)
    next hs =>
    rcases hmis with h | h | h | h | h
    · exact h (by rw [heqws]; simpa using (not_ne_iff.mp hw).symm)
    · exact h (by rw [heqdt]; simpa using (not_ne_iff.mp hd).symm)
    · exact ho h
    · exact hr h
    · exact hs h
  have h1 : (npy_save_append file dtype wordsize mo shape payload).isOk = false := by
    cases hres : npy_save_append file dtype wordsize mo shape payload with
    | error er => rfl
    | ok f => exact absurd hres (hok f)
  refine ⟨h1, ?_⟩
  rw [appended_file]
  cases hres : npy_save_append file dtype wordsize mo shape payload with
  | error er => rfl
  | ok f => exact absurd hres (hok f)

/-- C4 witness: appending 8-byte elements to a file of 4-byte elements fails
and leaves the file bytes unchanged. -/
theorem append_mismatch_fails_witness :
    (npy_save_append (npy_save_w [2, 3] 'i' 4 MemoryOrder.C (List.replicate 24 'a'))
      'i' 8 MemoryOrder.C [2, 3] (List.replicate 48 'b')).isOk = false ∧
    appended_file (npy_save_w [2, 3] 'i' 4 MemoryOrder.C (List.replicate 24 'a'))
      'i' 8 MemoryOrder.C [2, 3] (List.replicate 48 'b') =
      npy_save_w [2, 3] 'i' 4 MemoryOrder.C (List.replicate 24 'a') :=
  append_mismatch_fails _ ⟨[4], ['i'], [], [2, 3], MemoryOrder.C⟩ 80 'i' 8
    MemoryOrder.C [2, 3] (List.replicate 48 'b') (by rfl) (by decide)

/-- C4 counterexample: a ColumnMajor append whose first dimension (a
non-growth dimension for that order) disagrees with the stored header is
accepted by `npy_save_append`, and the file bytes change — the claim that
every non-growth-dimension mismatch fails and leaves the file untouched is
false on the code. -/
theorem append_mismatch_counterexample :
    (npy_save_append (npy_save_w [2, 3] 'u' 1 MemoryOrder.Fortran (List.replicate 6 'a'))
      'u' 1 MemoryOrder.Fortran [7, 3] (List.replicate 21 'b')).isOk = true ∧
    appended_file (npy_save_w [2, 3] 'u' 1 MemoryOrder.Fortran (List.replicate 6 'a'))
      'u' 1 MemoryOrder.Fortran [7, 3] (List.replicate 21 'b') ≠
      npy_save_w [2, 3] 'u' 1 MemoryOrder.Fortran (List.replicate 6 'a') := by
  constructor
  · rfl
  · decide

/-- C5: the dimension validation of the append path compares all dimensions
but the first against the existing header for BOTH memory orders, so under
ColumnMajor order the non-growth first dimension is never verified: a file
of Fortran shape (2, 3) accepts an append of shape (5, 3) — first dimension
5 against stored 2 — and rewrites the header for shape (2, 6), appending 60
payload bytes where the new header accounts for 24.  The claim that every
non-growth dimension is verified (all but the last for ColumnMajor) is
false on the code. -/
theorem append_fortran_nongrowth_unchecked :
    npy_save_append (npy_save_w [2, 3] 'i' 4 MemoryOrder.Fortran (List.replicate 24 'a'))
      'i' 4 MemoryOrder.Fortran [5, 3] (List.replicate 60 'b') =
    .ok (create_npy_header [2, 6] 'i' 4 MemoryOrder.Fortran
      ++ (List.replicate 24 'a' ++ List.replicate 60 'b')) := by rfl

/-! ## Streaming writer (C6) -/

/-- C6: the header phase of `npzwrite_source_callback` copies
`min(length, npyheader.size())` bytes instead of
`min(length, header_bytes_remaining)`.  With an 80-byte header and 48-byte
pulls: the first pull leaves 32 header bytes remaining, yet the second pull
emits 48 bytes (reading past the end of the header) and wraps
`header_bytes_remaining` to `2^64 - 16`, so the header phase never ends and
the emitted stream (96 bytes after two pulls) is not the 84-byte stream of
a single unchunked write. -/
theorem callback_header_chunk_bug :
    c6pull1.2.header_bytes_remaining = 32 ∧
    c6pull1.1 = c6header.take 48 ∧
    c6pull2.1.length = 48 ∧
    min 48 c6pull1.2.header_bytes_remaining = 32 ∧
    c6pull2.2.header_bytes_remaining = 2 ^ 64 - 16 ∧
    (c6pull1.1 ++ c6pull2.1).length = 96 ∧
    (c6header ++ ['w', 'x', 'y', 'z']).length = 84 := by
  refine ⟨by rfl, by rfl, by rfl, by rfl, by rfl, by rfl, by rfl⟩

/-! ## Magic-string and version validation (C8) -/

/-- C8 (amended): the stream-based `parse_npy_header` validates both the
6-byte magic string and that the version is exactly 1.0, failing otherwise;
the raw-buffer `parse_npy_header_buffer` validates only the version — it
never compares the magic bytes (see the counterexample). -/
theorem header_entry_validation :
    (∀ (contents : List Char) (pd : ParsedDict) (n : Nat),
      parse_npy_header contents = .ok (pd, n) →
      magicChars.isPrefixOf contents = true ∧
      contents.getD 6 (Char.ofNat 0) = Char.ofNat 1 ∧
      contents.getD 7 (Char.ofNat 0) = Char.ofNat 0) ∧
    (∀ contents : List Char, magicChars.isPrefixOf contents ≠ true →
      parse_npy_header contents = .error "parse_npy_header: NPY magic string not found") ∧
    (∀ contents : List Char,
      ¬ (contents.getD 6 (Char.ofNat 0) = Char.ofNat 1 ∧
         contents.getD 7 (Char.ofNat 0) = Char.ofNat 0) →
      (parse_npy_header contents).isOk = false) ∧
    (∀ (buffer : List Char) (pd : ParsedDict),
      parse_npy_header_buffer buffer = .ok pd →
      buffer.getD 6 (Char.ofNat 0) = Char.ofNat 1 ∧
      buffer.getD 7 (Char.ofNat 0) = Char.ofNat 0) ∧
    (∀ buffer : List Char,
      ¬ (buffer.getD 6 (Char.ofNat 0) = Char.ofNat 1 ∧
         buffer.getD 7 (Char.ofNat 0) = Char.ofNat 0) →
      parse_npy_header_buffer buffer = .error "parse_npy_header: version not supported") := by
  refine ⟨?_, ?_, ?_, ?_, ?_⟩
  · intro contents pd n h
    rw [parse_npy_header] at h
    split at h
    · exact absurd h (by simp)
    · split at h
      · exact absurd h (by simp)
      · simp_all
  · intro contents hmagic
    rw [parse_npy_header, if_pos (by simpa using hmagic)]
  · intro contents hver
    by_cases hmag : ¬ magicChars.isPrefixOf contents = true
    · rw [parse_npy_header, if_pos hmag]
      rfl
    · rw [parse_npy_header, if_neg hmag, if_pos hver]
      rfl
  · intro buffer pd h
    rw [parse_npy_header_buffer] at h
    split at h
    · exact absurd h (by simp)
    · simp_all
  · intro buffer hver
    rw [parse_npy_header_buffer, if_pos hver]

/-- C8 witness: a stream whose first bytes are not the magic string is
rejected by the stream-based parser. -/
theorem header_entry_validation_witness :
    parse_npy_header (List.replicate 20 'x') =
      .error "parse_npy_header: NPY magic string not found" :=
  header_entry_validation.2.1 (List.replicate 20 'x') (by decide)

/-- C8 counterexample: the raw-buffer entry point accepts a buffer whose
first six bytes are `XXXXXX` instead of the NPY magic string, so the claim
that every header-parsing entry point validates the magic string is false
on the code. -/
theorem parse_buffer_magic_counterexample :
    parse_npy_header_buffer (str "XXXXXX" ++ [Char.ofNat 1, Char.ofNat 0, Char.ofNat 70,
      Char.ofNat 0] ++ padDict (rawDict (simpleDescrVal 'i' 4) MemoryOrder.C [3])) =
      .ok ⟨[4], ['i'], [], [3], MemoryOrder.C⟩ ∧
    magicChars.isPrefixOf (str "XXXXXX" ++ [Char.ofNat 1, Char.ofNat 0, Char.ofNat 70,
      Char.ofNat 0] ++ padDict (rawDict (simpleDescrVal 'i' 4) MemoryOrder.C [3])) =
      false := by
  constructor
  · rfl
  · rfl

/-! ## Plain-descriptor field extraction (C9) -/

/-- C9 (amended): successfully parsing a plain (single quoted string)
descriptor yields exactly one word size and one type code, but the parsed
label sequence is left empty — the simple branch never pushes a label, so
the labels list has length 0, not a single empty label. -/
theorem parse_plain_descr_fields :
    ∀ (buffer : List Char) (pd : ParsedDict),
      parse_npy_dict buffer = .ok pd → isSimpleDescr buffer →
      pd.word_sizes.length = 1 ∧ pd.data_types.length = 1 ∧ pd.labels = [] := by
  intro buffer pd hok hsimple
  obtain ⟨psd, hfind, hq⟩ := hsimple
  rw [parse_npy_dict] at hok
  split at hok
  · exact absurd hok (by simp)
  · split at hok
    · exact absurd hok (by simp)
    · split at hok
      · exact absurd hok (by simp)
      · split at hok
        · exact absurd hok (by simp)
        · split at hok
          · exact absurd hok (by simp)
          · split at hok
            · exact absurd hok (by simp)
            · split at hok
              · exact absurd hok (by simp)
              · rename_i psd2 hfind2
                have hpsd : psd2 = psd := by
                  rw [hfind] at hfind2
                  exact (Option.some.injEq _ _ ▸ hfind2.symm)
                subst hpsd
                rw [if_pos hq] at hok
                split at hok
                · exact absurd hok (by simp)
                · split at hok
                  · exact absurd hok (by simp)
                  · split at hok
                    · exact absurd hok (by simp)
                    · cases hok
                      exact ⟨rfl, rfl, rfl⟩

/-- C9 witness: a concrete plain header parses with singleton word size and
type code and an empty label list. -/
theorem parse_plain_descr_fields_witness :
    (⟨[4], ['i'], [], [3], MemoryOrder.C⟩ : ParsedDict).word_sizes.length = 1 ∧
    (⟨[4], ['i'], [], [3], MemoryOrder.C⟩ : ParsedDict).data_types.length = 1 ∧
    (⟨[4], ['i'], [], [3], MemoryOrder.C⟩ : ParsedDict).labels = [] :=
  parse_plain_descr_fields (padDict (rawDict (simpleDescrVal 'i' 4) MemoryOrder.C [3]))
    ⟨[4], ['i'], [], [3], MemoryOrder.C⟩ (by rfl) ⟨1, by rfl, by rfl⟩

/-- C9 counterexample: parsing a concrete plain header yields `labels = []`,
a sequence of length 0, not the length-1 sequence containing one empty
label that the claim states. -/
theorem parse_plain_labels_counterexample :
    parse_npy_dict (padDict (rawDict (simpleDescrVal 'i' 4) MemoryOrder.C [3])) =
      .ok ⟨[4], ['i'], [], [3], MemoryOrder.C⟩ ∧
    (⟨[4], ['i'], [], [3], MemoryOrder.C⟩ : ParsedDict).labels.length ≠ 1 := by
  constructor
  · rfl
  · decide

/-! ## Big-endian rejection (C7) -/

theorem buildFields_no_bigendian :
    ∀ caps : List (List Char × Char × Char × List Char),
      '>' ∈ caps.map (fun t => t.2.1) →
      ∀ r, buildFields caps ≠ .ok r := by
  intro caps
  induction caps with
  | nil => simp
  | cons hd tl ih =>
    obtain ⟨lbl, e, c, ds⟩ := hd
    intro hmem r h
    rw [buildFields] at h
    by_cases he : e = '>'
    · rw [if_pos he] at h
      exact absurd h (by simp)
    · rw [if_neg he] at h
      have hmem2 : '>' ∈ tl.map (fun t => t.2.1) := by
        rcases List.mem_cons.mp hmem with h1 | h1
        · exact absurd h1.symm he
        · exact h1
      cases hstoi : stoiInt ds with
      | error er =>
        rw [hstoi] at h
        exact absurd h (by simp)
      | ok w =>
        rw [hstoi] at h
        cases hbf : buildFields tl with
        | error er =>
          rw [hbf] at h
          exact absurd h (by simp)
        | ok r2 => exact ih hmem2 r2 hbf

/-- C7: whenever the descriptor that the parser's scan matches carries the
big-endian marker `>` — for a plain descriptor or for any tuple of a
structured descriptor list — `parse_npy_dict` fails with an error; it never
accepts such a header. -/
theorem parse_rejects_big_endian :
    ∀ buffer : List Char, '>' ∈ descrEndianMarkers buffer →
      (parse_npy_dict buffer).isOk = false := by
  intro buffer hmem
  rw [descrEndianMarkers] at hmem
  rw [parse_npy_dict]
  split
  · rfl
  split
  · rfl
  cases hfm : scanFirst fortranMatch buffer with
  | none => simp only [hfm]; rfl
  | some isFortran =>
  simp only [hfm]
  cases hsk : firstOccurIdx shapeKey buffer with
  | none => simp only [hsk]; rfl
  | some pss =>
  simp only [hsk]
  cases hcp : findCharFrom ')' buffer pss with
  | none => simp only [hcp]; rfl
  | some pes =>
  simp only [hcp]
  cases hsh : (digitRuns ((buffer.drop pss).take (pes - pss))).mapM stoiInt with
  | error er => simp only [hsh]; rfl
  | ok shape =>
  simp only [hsh]
  cases hfo : firstOccurIdx descrKey buffer with
  | none => rw [hfo] at hmem; simp at hmem
  | some psd =>
  simp only [hfo]
  rw [hfo] at hmem
  simp only [] at hmem
  by_cases hq : buffer.getD (psd + descrKey.length) ' ' = quoteC
  · rw [if_pos hq] at hmem ⊢
    cases hsd : scanFirst simpleDescrMatch (buffer.drop psd) with
    | none => rw [hsd] at hmem; simp at hmem
    | some v =>
      obtain ⟨e, c, ds⟩ := v
      rw [hsd] at hmem
      simp only [hsd]
      simp at hmem
      rw [if_pos hmem.symm]
      rfl
  · rw [if_neg hq] at hmem ⊢
    by_cases hb : buffer.getD (psd + descrKey.length) ' ' = '['
    · rw [if_pos hb] at hmem ⊢
      cases hcl : findCharFrom ']' buffer (psd + descrKey.length) with
      | none => rw [hcl] at hmem; simp at hmem
      | some pel =>
        rw [hcl] at hmem
        simp only [hcl]
        simp only [] at hmem
        cases hbf : buildFields (tupleScan ((buffer.drop (psd + descrKey.length)).take
            (pel - (psd + descrKey.length)))) with
        | error er => simp only [hbf]; rfl
        | ok r => exact absurd hbf (buildFields_no_bigendian _ hmem r)
    · rw [if_neg hb] at hmem
      simp at hmem

/-- C7 witness: a concrete big-endian plain header is refused by the
parser. -/
theorem parse_rejects_big_endian_witness :
    (parse_npy_dict (padDict (rawDict (quoteC :: '>' :: 'i' :: (natChars 4 ++ [quoteC]))
      MemoryOrder.C [3]))).isOk = false :=
  parse_rejects_big_endian _ (by decide)

/-- A structured descriptor list containing the big-endian tuple
`('a b', '>i4')` is silently ACCEPTED: the space in the label keeps the
tuple regex from matching, so the big-endian throw is unreachable — the
scan yields no endian markers and `parse_npy_dict` returns ok with empty
fields although the header carries the `>` marker. -/
theorem bigendian_nonword_label_counterexample :
    '>' ∈ ([braceL, quoteC] ++ str "descr" ++ [quoteC, ':', ' ']
      ++ ['[', '(', quoteC] ++ str "a b"
      ++ [quoteC, ',', ' ', quoteC, '>', 'i', '4', quoteC, ')', ']']
      ++ [',', ' ', quoteC] ++ str "fortran_order" ++ [quoteC, ':', ' '] ++ str "False"
      ++ [',', ' ', quoteC] ++ str "shape"
      ++ [quoteC, ':', ' ', '(', '2', ',', ')', ',', ' ', braceR, nlC])
    ∧ parse_npy_dict ([braceL, quoteC] ++ str "descr" ++ [quoteC, ':', ' ']
      ++ ['[', '(', quoteC] ++ str "a b"
      ++ [quoteC, ',', ' ', quoteC, '>', 'i', '4', quoteC, ')', ']']
      ++ [',', ' ', quoteC] ++ str "fortran_order" ++ [quoteC, ':', ' '] ++ str "False"
      ++ [',', ' ', quoteC] ++ str "shape"
      ++ [quoteC, ':', ' ', '(', '2', ',', ')', ',', ' ', braceR, nlC])
      = .ok ⟨[], [], [], [2], MemoryOrder.C⟩
    ∧ descrEndianMarkers ([braceL, quoteC] ++ str "descr" ++ [quoteC, ':', ' ']
      ++ ['[', '(', quoteC] ++ str "a b"
      ++ [quoteC, ',', ' ', quoteC, '>', 'i', '4', quoteC, ')', ']']
      ++ [',', ' ', quoteC] ++ str "fortran_order" ++ [quoteC, ':', ' '] ++ str "False"
      ++ [',', ' ', quoteC] ++ str "shape"
      ++ [quoteC, ':', ' ', '(', '2', ',', ')', ',', ' ', braceR, nlC]) = [] :=
  ⟨by decide, by rfl, by rfl⟩

/-! ## Decimal rendering: `natChars` -/

theorem charOfNat_toNat {m : Nat} (h : m < 55296) : (Char.ofNat m).toNat = m := by
  have hv : Nat.isValidChar m := Or.inl h
  rw [Char.ofNat, dif_pos hv]
  rfl

theorem natCharsAux_congr : ∀ n f g : Nat, n ≤ f → n ≤ g →
    natCharsAux f n = natCharsAux g n := by
  intro n
  induction n using Nat.strong_induction_on with
  | _ n ih =>
    intro f g hf hg
    cases f with
    | zero =>
      interval_cases n
      cases g
      · rfl
      · simp [natCharsAux]
    | succ f =>
      cases g with
      | zero =>
        interval_cases n
        simp [natCharsAux]
      | succ g =>
        rw [natCharsAux, natCharsAux]
        by_cases hn : n < 10
        · rw [if_pos hn, if_pos hn]
        · rw [if_neg hn, if_neg hn]
          have hdiv : n / 10 < n := Nat.div_lt_self (by omega) (by omega)
          rw [ih (n / 10) hdiv f g (by omega) (by omega)]

theorem natChars_eq (n : Nat) :
    natChars n = if n < 10 then [Char.ofNat (48 + n)]
      else natChars (n / 10) ++ [Char.ofNat (48 + n % 10)] := by
  by_cases hn : n < 10
  · rw [if_pos hn, natChars]
    cases n
    · rfl
    · rw [natCharsAux, if_pos hn]
  · rw [if_neg hn, natChars, natChars]
    obtain ⟨m, rfl⟩ : ∃ m, n = m + 1 := ⟨n - 1, by omega⟩
    rw [natCharsAux, if_neg hn]
    have hdiv : (m + 1) / 10 < m + 1 := Nat.div_lt_self (by omega) (by omega)
    rw [natCharsAux_congr ((m + 1) / 10) m ((m + 1) / 10) (by omega) (by omega)]

theorem natChars_ne_nil (n : Nat) : natChars n ≠ [] := by
  rw [natChars_eq]
  split
  · simp
  · simp

theorem natChars_digits (n : Nat) : ∀ c ∈ natChars n, c.isDigit = true := by
  induction n using Nat.strong_induction_on with
  | _ n ih =>
    rw [natChars_eq]
    split
    next hn =>
      intro c hc
      rw [List.mem_singleton] at hc
      subst hc
      have h10 : ∀ d < 10, (Char.ofNat (48 + d)).isDigit = true := by decide
      exact h10 n hn
    next hn =>
      intro c hc
      rcases List.mem_append.mp hc with h | h
      · exact ih (n / 10) (Nat.div_lt_self (by omega) (by omega)) c h
      · rw [List.mem_singleton] at h
        subst h
        have h10 : ∀ d < 10, (Char.ofNat (48 + d)).isDigit = true := by decide
        exact h10 (n % 10) (Nat.mod_lt _ (by omega))

theorem stoiNat_natChars (n : Nat) : stoiNat (natChars n) = n := by
  induction n using Nat.strong_induction_on with
  | _ n ih =>
    rw [natChars_eq]
    split
    next hn =>
      simp only [stoiNat, List.foldl_cons, List.foldl_nil]
      rw [charOfNat_toNat (by omega)]
      omega
    next hn =>
      simp only [stoiNat, List.foldl_append, List.foldl_cons, List.foldl_nil]
      simp only [stoiNat] at ih
      rw [ih (n / 10) (Nat.div_lt_self (by omega) (by omega))]
      rw [charOfNat_toNat (by omega)]
      omega

theorem stoiInt_natChars {n : Nat} (h : n ≤ 2147483647) :
    stoiInt (natChars n) = .ok n := by
  rw [stoiInt, stoiNat_natChars, if_pos h]

/-- A digit character is none of the punctuation bytes that delimit the
header dictionary. -/
theorem isDigit_ne {c : Char} (h : c.isDigit = true) :
    c ≠ ':' ∧ c ≠ quoteC ∧ c ≠ ')' ∧ c ≠ ']' ∧ c ≠ '(' ∧ c ≠ ',' ∧ c ≠ ' ' := by
  refine ⟨?_, ?_, ?_, ?_, ?_, ?_, ?_⟩ <;> intro heq <;> rw [heq] at h <;>
    exact absurd h (by decide)

theorem not_mem_natChars {x : Char} (hx : x.isDigit = false) (n : Nat) :
    x ∉ natChars n := by
  intro hmem
  rw [natChars_digits n x hmem] at hx
  cases hx

/-! ## Digit-run extraction over the generated shape text -/

theorem digitRunsAux_skip {c : Char} (hc : c.isDigit = false) (s : List Char) :
    digitRunsAux (c :: s) [] = digitRunsAux s [] := by
  rw [digitRunsAux, hc]
  simp

theorem digitRunsAux_skipAll {X : List Char} (hX : ∀ c ∈ X, c.isDigit = false)
    (Y : List Char) : digitRunsAux (X ++ Y) [] = digitRunsAux Y [] := by
  induction X with
  | nil => rfl
  | cons c t ih =>
    rw [List.cons_append, digitRunsAux_skip (hX c (by simp))]
    exact ih (fun x hx => hX x (by simp [hx]))

theorem digitRunsAux_accum {D : List Char} (hD : ∀ c ∈ D, c.isDigit = true) :
    ∀ (s acc : List Char), digitRunsAux (D ++ s) acc = digitRunsAux s (D.reverse ++ acc) := by
  induction D with
  | nil => intro s acc; rfl
  | cons c t ih =>
    intro s acc
    rw [List.cons_append, digitRunsAux, hD c (by simp)]
    simp only [if_true]
    rw [ih (fun x hx => hD x (by simp [hx])) s (c :: acc)]
    simp

theorem digitRuns_inner :
    ∀ (t : List Nat) (d : Nat) (Z : List Char), (Z = [] ∨ Z = [',']) →
      digitRunsAux (natChars d ++ (dimsTail t ++ Z)) [] = natChars d :: t.map natChars := by
  intro t
  induction t with
  | nil =>
    intro d Z hZ
    rw [digitRunsAux_accum (natChars_digits d)]
    rcases hZ with rfl | rfl
    · simp only [dimsTail, List.nil_append, List.append_nil, digitRunsAux]
      rw [if_neg (by simp [natChars_ne_nil])]
      simp
    · simp only [dimsTail, List.nil_append, digitRunsAux]
      rw [if_neg (by decide), if_neg (by simp [natChars_ne_nil])]
      simp [digitRunsAux]
  | cons e t' ih =>
    intro d Z hZ
    rw [digitRunsAux_accum (natChars_digits d)]
    simp only [dimsTail, List.cons_append, List.append_assoc, List.map_cons]
    rw [digitRunsAux]
    rw [if_neg (by decide), if_neg (by simp [natChars_ne_nil])]
    rw [digitRunsAux_skip (by decide)]
    simp only [List.append_nil, List.reverse_reverse]
    rw [← List.append_assoc (natChars e)]
    rw [List.append_assoc]
    rw [ih e Z hZ]

theorem digitRuns_region {X : List Char} (hX : ∀ c ∈ X, c.isDigit = false)
    (s0 : Nat) (rest : List Nat) :
    digitRuns (X ++ shapeChars (s0 :: rest)) = (s0 :: rest).map natChars := by
  rw [digitRuns, digitRunsAux_skipAll hX]
  cases rest with
  | nil =>
    rw [shapeChars]
    simp only [if_pos rfl, dimsTail, List.append_nil, List.nil_append, List.map_cons,
      List.map_nil]
    have := digitRuns_inner [] s0 [','] (Or.inr rfl)
    simpa [dimsTail] using this
  | cons r rs =>
    rw [shapeChars]
    rw [if_neg (by simp)]
    simp only [List.append_nil, List.map_cons]
    have := digitRuns_inner (r :: rs) s0 [] (Or.inl rfl)
    simpa using this

theorem mapM_stoiInt_natChars :
    ∀ l : List Nat, (∀ d ∈ l, d ≤ 2147483647) →
      (l.map natChars).mapM stoiInt = .ok l := by
  intro l
  induction l with
  | nil => intro _; rfl
  | cons d t ih =>
    intro hl
    rw [List.map_cons, List.mapM_cons, stoiInt_natChars (hl d (by simp)),
      ih (fun x hx => hl x (by simp [hx]))]
    rfl

/-! ## Leftmost-search characterizations -/

theorem isPrefixOf_append_self (p r : List Char) : p.isPrefixOf (p ++ r) = true :=
  List.isPrefixOf_iff_prefix.mpr (List.prefix_append p r)

theorem isPrefixOf_getElem? {p s : List Char} (h : p.isPrefixOf s = true)
    {k : Nat} (hk : k < p.length) : s[k]? = p[k]? := by
  obtain ⟨t, ht⟩ := List.isPrefixOf_iff_prefix.mp h
  subst ht
  exact List.getElem?_append_left hk

theorem getElem?_ne_of_not_mem {x : Char} {l : List Char} (h : x ∉ l) (k : Nat) :
    l[k]? ≠ some x :=
  fun hk => h (List.getElem?_mem hk)

theorem scanFirst_append {α : Type} (m : List Char → Option α) :
    ∀ (A B : List Char), (∀ i, i < A.length → m ((A ++ B).drop i) = none) →
      scanFirst m (A ++ B) = scanFirst m B := by
  intro A
  induction A with
  | nil => intro B _; rfl
  | cons c t ih =>
    intro B h
    have h0 := h 0 (by simp)
    simp only [List.drop_zero, List.cons_append] at h0
    rw [List.cons_append, scanFirst, h0]
    exact ih B (fun i hi => by
      have := h (i + 1) (by simp; omega)
      simpa using this)

theorem scanFirst_cons_of_some {α : Type} {m : List Char → Option α} {c : Char}
    {t : List Char} {v : α} (h : m (c :: t) = some v) :
    scanFirst m (c :: t) = some v := by
  rw [scanFirst, h]

theorem firstOccurIdx_of (pat : List Char) :
    ∀ (s : List Char) (j : Nat), pat.isPrefixOf (s.drop j) = true →
      (∀ i, i < j → pat.isPrefixOf (s.drop i) = false) →
      firstOccurIdx pat s = some j := by
  intro s
  induction s with
  | nil =>
    intro j hj hmin
    cases j with
    | zero =>
      rw [List.drop_nil] at hj
      rw [firstOccurIdx, if_pos hj]
    | succ j =>
      have h0 := hmin 0 (by omega)
      rw [List.drop_nil] at hj h0
      rw [h0] at hj
      cases hj
  | cons c t ih =>
    intro j hj hmin
    cases j with
    | zero =>
      rw [List.drop_zero] at hj
      rw [firstOccurIdx, if_pos hj]
    | succ j =>
      have h0 := hmin 0 (by omega)
      rw [List.drop_zero] at h0
      rw [firstOccurIdx, if_neg (by rw [h0]; exact fun hc => nomatch hc)]
      have hrec : firstOccurIdx pat t = some j := by
        refine ih j ?_ ?_
        · simpa using hj
        · intro i hi
          have := hmin (i + 1) (by omega)
          simpa using this
      rw [hrec]
      rfl

theorem findCharFrom_of {ch : Char} {s : List Char} {pos : Nat} {A B : List Char}
    (hsplit : s.drop pos = A ++ ch :: B) (hA : ch ∉ A) :
    findCharFrom ch s pos = some (A.length + pos) := by
  rw [findCharFrom, hsplit]
  have hocc : firstOccurIdx [ch] (A ++ ch :: B) = some A.length := by
    refine firstOccurIdx_of [ch] (A ++ ch :: B) A.length ?_ ?_
    · rw [List.drop_left]
      exact List.isPrefixOf_iff_prefix.mpr ⟨B, rfl⟩
    · intro i hi
      rw [List.drop_append_of_le_length (le_of_lt hi), List.drop_eq_getElem_cons hi,
        List.cons_append]
      have hne : A[i] ≠ ch := fun hc => hA (hc ▸ List.getElem_mem hi)
      simp [List.isPrefixOf]
      exact fun hc => absurd hc.symm hne
  rw [hocc]
  rfl

/-! ## The generated dictionary and its colon positions -/

theorem padDict_rawDict (dv : List Char) (mo : MemoryOrder) (shape : List Nat) :
    padDict (rawDict dv mo shape) =
      dictParts dv (fortranChars mo) (shapeChars shape)
        (dictClose (rawDict dv mo shape).length) := by
  simp [padDict, rawDict, dictParts, dictClose, List.append_assoc]

theorem getElem?_append_cases {a b : List Char} {j : Nat} {x : Char}
    (h : (a ++ b)[j]? = some x) :
    (j < a.length ∧ a[j]? = some x) ∨ (a.length ≤ j ∧ b[j - a.length]? = some x) := by
  by_cases hj : j < a.length
  · exact Or.inl ⟨hj, by rw [← List.getElem?_append_left hj]; exact h⟩
  · exact Or.inr ⟨by omega, by rw [← List.getElem?_append_right (by omega)]; exact h⟩

theorem getElem?_concrete_lt {l : List Char} {j : Nat} {x : Char}
    (h : l[j]? = some x) : j < l.length := by
  by_contra hc
  rw [List.getElem?_eq_none (by omega)] at h
  cases h

theorem descrPre_colon {j : Nat}
    (h : (([braceL, quoteC] ++ str "descr" ++ [quoteC, ':', ' '])[j]?) = some ':') :
    j = 8 := by
  have hj : j < 10 := by
    have := getElem?_concrete_lt h
    simpa [str] using this
  interval_cases j <;> revert h <;> decide

theorem fortranPre_colon {j : Nat}
    (h : (([',', ' ', quoteC] ++ str "fortran_order" ++ [quoteC, ':', ' '])[j]?) = some ':') :
    j = 17 := by
  have hj : j < 19 := by
    have := getElem?_concrete_lt h
    simpa [str] using this
  interval_cases j <;> revert h <;> decide

theorem shapePre_colon {j : Nat}
    (h : (([',', ' ', quoteC] ++ str "shape" ++ [quoteC, ':', ' ', '('])[j]?) = some ':') :
    j = 9 := by
  have hj : j < 12 := by
    have := getElem?_concrete_lt h
    simpa [str] using this
  interval_cases j <;> revert h <;> decide

/-- The only colons of a generated dictionary are the three key-value
colons: after `descr` (position 8), after `fortran_order` (position
`27 + dv.length`) and after `shape` (position `38 + dv.length +
tf.length`). -/
theorem dictParts_colon {dv tf sc tl : List Char}
    (hdv : ':' ∉ dv) (htf : ':' ∉ tf) (hsc : ':' ∉ sc) (htl : ':' ∉ tl) :
    ∀ j, (dictParts dv tf sc tl)[j]? = some ':' →
      j = 8 ∨ j = 27 + dv.length ∨ j = 38 + dv.length + tf.length := by
  intro j h
  rw [dictParts] at h
  rcases getElem?_append_cases h with ⟨hj1, h⟩ | ⟨hj1, h⟩
  swap
  · exact absurd h (getElem?_ne_of_not_mem htl _)
  rcases getElem?_append_cases h with ⟨hj2, h⟩ | ⟨hj2, h⟩
  swap
  · exact absurd h (getElem?_ne_of_not_mem hsc _)
  rcases getElem?_append_cases h with ⟨hj3, h⟩ | ⟨hj3, h⟩
  swap
  · have h9 := shapePre_colon h
    right; right
    simp only [List.length_append, List.length_cons, List.length_nil, str,
      String.toList] at hj3 h9 ⊢
    omega
  rcases getElem?_append_cases h with ⟨hj4, h⟩ | ⟨hj4, h⟩
  swap
  · exact absurd h (getElem?_ne_of_not_mem htf _)
  rcases getElem?_append_cases h with ⟨hj5, h⟩ | ⟨hj5, h⟩
  swap
  · have h17 := fortranPre_colon h
    right; left
    simp only [List.length_append, List.length_cons, List.length_nil, str,
      String.toList] at hj5 h17 ⊢
    omega
  rcases getElem?_append_cases h with ⟨hj6, h⟩ | ⟨hj6, h⟩
  swap
  · exact absurd h (getElem?_ne_of_not_mem hdv _)
  · have h8 := descrPre_colon h
    exact Or.inl h8

/-! ## Locating the keys inside a generated dictionary -/

theorem dictParts_drop_one (dv tf sc tl : List Char) :
    (dictParts dv tf sc tl).drop 1 =
      descrKey ++ (dv
        ++ ([',', ' ', quoteC] ++ str "fortran_order" ++ [quoteC, ':', ' ']) ++ tf
        ++ ([',', ' ', quoteC] ++ str "shape" ++ [quoteC, ':', ' ', '(']) ++ sc ++ tl) := by
  simp [dictParts, descrKey, List.append_assoc]

theorem dictParts_getElem_head (dv tf sc tl : List Char) :
    (dictParts dv tf sc tl)[0]? = some braceL := by
  rw [dictParts]
  rfl

theorem dictParts_getElem_two (dv tf sc tl : List Char) :
    (dictParts dv tf sc tl)[2]? = some 'd' := by
  rw [dictParts]
  rfl

theorem dictParts_getElem_dv {dv : List Char} (tf sc tl : List Char) {off : Nat}
    (hoff : off < dv.length) :
    (dictParts dv tf sc tl)[10 + off]? = dv[off]? := by
  have hassoc : dictParts dv tf sc tl =
      ([braceL, quoteC] ++ str "descr" ++ [quoteC, ':', ' ']) ++ (dv
        ++ (([',', ' ', quoteC] ++ str "fortran_order" ++ [quoteC, ':', ' ']) ++ (tf
        ++ (([',', ' ', quoteC] ++ str "shape" ++ [quoteC, ':', ' ', '(']) ++ (sc ++ tl))))) := by
    simp [dictParts, List.append_assoc]
  rw [hassoc, List.getElem?_append_right (by simp [str])]
  have h10 : 10 + off - ([braceL, quoteC] ++ str "descr" ++ [quoteC, ':', ' ']).length
      = off := by
    simp [str]
  rw [h10, List.getElem?_append_left hoff]

theorem dictParts_getElem_fortran_underscore (dv tf sc tl : List Char) :
    (dictParts dv tf sc tl)[20 + dv.length]? = some '_' := by
  have hassoc : dictParts dv tf sc tl =
      (([braceL, quoteC] ++ str "descr" ++ [quoteC, ':', ' ']) ++ dv ++ [',', ' ', quoteC])
        ++ (str "fortran_order"
          ++ ([quoteC, ':', ' '] ++ (tf
            ++ (([',', ' ', quoteC] ++ str "shape" ++ [quoteC, ':', ' ', '(']) ++ (sc ++ tl))))) := by
    simp [dictParts, List.append_assoc]
  have hlen : (([braceL, quoteC] ++ str "descr" ++ [quoteC, ':', ' ']) ++ dv
      ++ [',', ' ', quoteC]).length = 13 + dv.length := by
    simp [str]
    omega
  rw [hassoc, List.getElem?_append_right (by rw [hlen]; omega), hlen]
  have hidx : 20 + dv.length - (13 + dv.length) = 7 := by omega
  rw [hidx, List.getElem?_append_left (by simp [str])]
  rfl

/-- The `'descr': ` key of a generated dictionary is found at position 1. -/
theorem firstOccurIdx_descrKey (dv tf sc tl : List Char) :
    firstOccurIdx descrKey (dictParts dv tf sc tl) = some 1 := by
  refine firstOccurIdx_of descrKey _ 1 ?_ ?_
  · rw [dictParts_drop_one]
    exact isPrefixOf_append_self _ _
  · intro i hi
    interval_cases i
    rw [List.drop_zero]
    cases hb : descrKey.isPrefixOf (dictParts dv tf sc tl)
    · rfl
    · have h0 := isPrefixOf_getElem? hb (k := 0) (by rw [descrKey]; simp [str])
      rw [dictParts_getElem_head] at h0
      rw [descrKey] at h0
      simp at h0
      exact absurd h0 (by decide)

/-- The `'shape': (` key of a generated dictionary is found at position
`31 + dv.length + tf.length`, right where the generator wrote it. -/
theorem firstOccurIdx_shapeKey {dv tf sc tl : List Char}
    (hdv : ':' ∉ dv) (htf : ':' ∉ tf) (hsc : ':' ∉ sc) (htl : ':' ∉ tl) :
    firstOccurIdx shapeKey (dictParts dv tf sc tl) =
      some (31 + dv.length + tf.length) := by
  have hassoc : dictParts dv tf sc tl =
      (([braceL, quoteC] ++ str "descr" ++ [quoteC, ':', ' ']) ++ dv
        ++ ([',', ' ', quoteC] ++ str "fortran_order" ++ [quoteC, ':', ' ']) ++ tf
        ++ [',', ' ']) ++ (shapeKey ++ (sc ++ tl)) := by
    simp [dictParts, shapeKey, List.append_assoc]
  have hlen : (([braceL, quoteC] ++ str "descr" ++ [quoteC, ':', ' ']) ++ dv
      ++ ([',', ' ', quoteC] ++ str "fortran_order" ++ [quoteC, ':', ' ']) ++ tf
      ++ [',', ' ']).length = 31 + dv.length + tf.length := by
    simp [str]
    omega
  refine firstOccurIdx_of shapeKey _ (31 + dv.length + tf.length) ?_ ?_
  · rw [hassoc, ← hlen, List.drop_left]
    exact isPrefixOf_append_self _ _
  · intro i hi
    cases hb : shapeKey.isPrefixOf ((dictParts dv tf sc tl).drop i)
    · rfl
    · exfalso
      have h7 : ((dictParts dv tf sc tl).drop i)[7]? = some ':' := by
        rw [isPrefixOf_getElem? hb (k := 7) (by rw [shapeKey]; simp [str])]
        rw [shapeKey]
        rfl
      rw [List.getElem?_drop] at h7
      rcases dictParts_colon hdv htf hsc htl _ h7 with h | h | h
      · -- the candidate at position 1 starts the descr key, whose second
        -- character is d, not the s of the shape key
        have hi1 : i = 1 := by omega
        subst hi1
        have hs : ((dictParts dv tf sc tl).drop 1)[1]? = some 's' := by
          rw [isPrefixOf_getElem? hb (k := 1) (by rw [shapeKey]; simp [str])]
          rw [shapeKey]
          rfl
        rw [List.getElem?_drop] at hs
        have h11 : (1 : Nat) + 1 = 2 := rfl
        rw [h11, dictParts_getElem_two] at hs
        simp at hs
      · -- the candidate inside the fortran_order key: the character there is
        -- an underscore, not the quote the pattern starts with
        have hq : ((dictParts dv tf sc tl).drop i)[0]? = some quoteC := by
          rw [isPrefixOf_getElem? hb (k := 0) (by rw [shapeKey]; simp [str])]
          rw [shapeKey]
          rfl
        rw [List.getElem?_drop] at hq
        have hi20 : i = 20 + dv.length := by omega
        rw [hi20, Nat.add_zero] at hq
        rw [dictParts_getElem_fortran_underscore] at hq
        simp at hq
        exact absurd hq (by decide)
      · omega

/-! ## Character membership of the generated pieces -/

theorem dimsTail_mem : ∀ (t : List Nat), ∀ c ∈ dimsTail t,
    c.isDigit = true ∨ c = ',' ∨ c = ' ' := by
  intro t
  induction t with
  | nil => simp [dimsTail]
  | cons d t' ih =>
    intro c hc
    rw [dimsTail] at hc
    rcases List.mem_cons.mp hc with rfl | hc
    · exact Or.inr (Or.inl rfl)
    rcases List.mem_cons.mp hc with rfl | hc
    · exact Or.inr (Or.inr rfl)
    rcases List.mem_append.mp hc with hc | hc
    · exact Or.inl (natChars_digits d c hc)
    · exact ih c hc

theorem shapeChars_mem : ∀ (shape : List Nat), ∀ c ∈ shapeChars shape,
    c.isDigit = true ∨ c = ',' ∨ c = ' ' := by
  intro shape c hc
  cases shape with
  | nil => cases hc
  | cons s0 rest =>
    rw [shapeChars] at hc
    rcases List.mem_append.mp hc with hc | hc
    · rcases List.mem_append.mp hc with hc | hc
      · exact Or.inl (natChars_digits s0 c hc)
      · exact dimsTail_mem rest c hc
    · split at hc
      · rw [List.mem_singleton] at hc
        exact Or.inr (Or.inl hc)
      · cases hc

theorem shapeChars_not_mem {x : Char} (hd : x.isDigit = false) (hc : x ≠ ',')
    (hs : x ≠ ' ') (shape : List Nat) : x ∉ shapeChars shape := by
  intro hmem
  rcases shapeChars_mem shape x hmem with h | h | h
  · rw [h] at hd; cases hd
  · exact hc h
  · exact hs h

theorem dictClose_not_mem {x : Char} (h1 : x ≠ ')') (h2 : x ≠ ',') (h3 : x ≠ ' ')
    (h4 : x ≠ braceR) (h5 : x ≠ nlC) (n : Nat) : x ∉ dictClose n := by
  intro hmem
  rw [dictClose] at hmem
  rcases List.mem_append.mp hmem with hc | hc
  · rcases List.mem_append.mp hc with hc | hc
    · rcases List.mem_cons.mp hc with rfl | hc
      · exact h1 rfl
      rcases List.mem_cons.mp hc with rfl | hc
      · exact h2 rfl
      rcases List.mem_cons.mp hc with rfl | hc
      · exact h3 rfl
      rcases List.mem_cons.mp hc with rfl | hc
      · exact h4 rfl
      cases hc
    · exact h3 (List.eq_of_mem_replicate hc)
  · rw [List.mem_singleton] at hc
    exact h5 hc

theorem simpleDescrVal_mem {dtype : Char} {w : Nat} :
    ∀ c ∈ simpleDescrVal dtype w, c = quoteC ∨ c = '<' ∨ c = dtype ∨ c.isDigit = true := by
  intro c hc
  rw [simpleDescrVal] at hc
  rcases List.mem_cons.mp hc with rfl | hc
  · exact Or.inl rfl
  rcases List.mem_cons.mp hc with rfl | hc
  · exact Or.inr (Or.inl rfl)
  rcases List.mem_cons.mp hc with rfl | hc
  · exact Or.inr (Or.inr (Or.inl rfl))
  rcases List.mem_append.mp hc with hc | hc
  · exact Or.inr (Or.inr (Or.inr (natChars_digits w c hc)))
  · rw [List.mem_singleton] at hc
    exact Or.inl hc

/-- A lowercase letter is none of the bytes that structure the header
dictionary, is not a digit, and lies in the descriptor regex character
class. -/
theorem isLower_ne {c : Char} (h : c.isLower = true) :
    c ≠ ':' ∧ c ≠ quoteC ∧ c ≠ ')' ∧ c ≠ ']' ∧ c ≠ '(' ∧ c ≠ ',' ∧ c ≠ ' '
      ∧ c ≠ '>' ∧ c ≠ '<' ∧ c ≠ '|' ∧ c.isDigit = false ∧ letterClass c = true := by
  have hdig : c.isDigit = false := by
    simp only [Char.isLower, Bool.and_eq_true, decide_eq_true_eq] at h
    have h1 : 97 ≤ c.val.toNat := h.1
    simp only [Char.isDigit]
    have hne : ¬ (c.val ≤ 57) := by
      intro hle
      have h2 : c.val.toNat ≤ 57 := hle
      omega
    simp [hne]
  have hcls : letterClass c = true := by
    simp only [Char.isLower, Bool.and_eq_true, decide_eq_true_eq] at h
    have ha : 'a' ≤ c := by
      rw [Char.le_def]
      exact h.1
    have hz : c ≤ 'z' := by
      rw [Char.le_def]
      exact h.2
    simp [letterClass, ha, hz]
  refine ⟨?_, ?_, ?_, ?_, ?_, ?_, ?_, ?_, ?_, ?_, hdig, hcls⟩ <;>
    intro hx <;> rw [hx] at h <;> exact absurd h (by decide)

/-! ## Matcher characterizations -/

theorem takeWhile_append_block {p : Char → Bool} {D : List Char}
    (hD : ∀ c ∈ D, p c = true) {x : Char} (hx : p x = false) (R : List Char) :
    (D ++ x :: R).takeWhile p = D ∧ (D ++ x :: R).dropWhile p = x :: R := by
  induction D with
  | nil =>
    have hxf : ¬ p x = true := by rw [hx]; exact fun hc => nomatch hc
    constructor
    · simp [List.takeWhile_cons_of_neg hxf]
    · simp [List.dropWhile_cons_of_neg hxf]
  | cons d t ih =>
    have hd := hD d (by simp)
    obtain ⟨ih1, ih2⟩ := ih (fun c hc => hD c (by simp [hc]))
    constructor
    · rw [List.cons_append, List.takeWhile_cons_of_pos hd, ih1]
    · rw [List.cons_append, List.dropWhile_cons_of_pos hd, ih2]

theorem scanFirst_of_some {α : Type} {m : List Char → Option α} {s : List Char}
    {v : α} (hs : s ≠ []) (h : m s = some v) : scanFirst m s = some v := by
  cases s with
  | nil => exact absurd rfl hs
  | cons c t => exact scanFirst_cons_of_some h

theorem simpleDescrMatch_eq_none_head {s : List Char} (h : s[0]? ≠ some quoteC) :
    simpleDescrMatch s = none := by
  match s with
  | [] => rfl
  | [a] => rfl
  | [a, b] => rfl
  | q :: e :: c :: r =>
    rw [simpleDescrMatch, if_neg]
    intro hc
    exact h (by rw [hc.1]; rfl)

theorem simpleDescrMatch_eq_none_snd {s : List Char}
    (h : s[1]? ≠ some '<' ∧ s[1]? ≠ some '>' ∧ s[1]? ≠ some '|') :
    simpleDescrMatch s = none := by
  match s with
  | [] => rfl
  | [a] => rfl
  | [a, b] => rfl
  | q :: e :: c :: r =>
    rw [simpleDescrMatch, if_neg]
    intro hc
    rcases hc.2.1 with he | he | he
    · exact h.1 (by rw [he]; rfl)
    · exact h.2.1 (by rw [he]; rfl)
    · exact h.2.2 (by rw [he]; rfl)

theorem simpleDescrMatch_at {dtype : Char} (hcls : letterClass dtype = true)
    (w : Nat) (R : List Char) :
    simpleDescrMatch (simpleDescrVal dtype w ++ R) = some ('<', dtype, natChars w) := by
  obtain ⟨d0, ds', hds⟩ := List.exists_cons_of_ne_nil (natChars_ne_nil w)
  obtain ⟨htake, hdrop⟩ := takeWhile_append_block (p := Char.isDigit)
    (natChars_digits w) (x := quoteC) (by decide) R
  have hsplit : simpleDescrVal dtype w ++ R
      = quoteC :: '<' :: dtype :: (natChars w ++ quoteC :: R) := by
    simp [simpleDescrVal, BigEndianTestChar, List.append_assoc]
  rw [hsplit]
  rw [hds] at htake hdrop ⊢
  rw [simpleDescrMatch, if_pos ⟨rfl, Or.inl rfl, hcls⟩, htake, hdrop]
  simp only []
  simp

theorem matchTuple_eq_none_head {s : List Char} (h : s[0]? ≠ some '(') :
    matchTuple s = none := by
  match s with
  | [] => rfl
  | [a] => rfl
  | p :: q :: r =>
    rw [matchTuple, if_neg]
    intro hc
    exact h (by rw [hc.1]; rfl)

theorem matchTuple_at {lbl : List Char} {dt : Char} (sz : Nat)
    (hne : lbl ≠ []) (hw : ∀ c ∈ lbl, wordChar c = true)
    (hcls : letterClass dt = true) (R : List Char) :
    matchTuple (tupleChars (lbl, dt, sz) ++ R) = some (lbl, '<', dt, natChars sz) := by
  obtain ⟨l0, ls, hls⟩ := List.exists_cons_of_ne_nil hne
  obtain ⟨d0, ds', hds⟩ := List.exists_cons_of_ne_nil (natChars_ne_nil sz)
  obtain ⟨htake1, hdrop1⟩ := takeWhile_append_block (p := wordChar) hw
    (x := quoteC) (by decide)
    (',' :: ' ' :: quoteC :: '<' :: dt :: (natChars sz ++ quoteC :: ')' :: R))
  obtain ⟨htake2, hdrop2⟩ := takeWhile_append_block (p := Char.isDigit)
    (natChars_digits sz) (x := quoteC) (by decide) (')' :: R)
  have hsplit : tupleChars (lbl, dt, sz) ++ R
      = '(' :: quoteC :: (lbl ++ quoteC :: ',' :: ' ' :: quoteC :: '<' :: dt ::
          (natChars sz ++ quoteC :: ')' :: R)) := by
    simp [tupleChars, BigEndianTestChar, List.append_assoc]
  rw [hsplit]
  rw [hls, hds] at htake1 hdrop1
  rw [hds] at htake2 hdrop2
  rw [hls, hds]
  rw [matchTuple, if_pos ⟨rfl, rfl⟩, htake1, hdrop1]
  simp only []
  rw [htake2, hdrop2]
  simp only []
  simp [hcls]

/-! ## Locating the fortran_order value -/

theorem fortranMatch_colon {s : List Char} (h : fortranMatch s ≠ none) :
    s[15]? = some ':' := by
  rw [fortranMatch] at h
  by_cases h1 : truePat.isPrefixOf s = true
  · rw [isPrefixOf_getElem? h1 (k := 15) (by rw [truePat]; simp [str])]
    rfl
  · rw [if_neg (fun hc => h1 hc)] at h
    by_cases h2 : falsePat.isPrefixOf s = true
    · rw [isPrefixOf_getElem? h2 (k := 15) (by rw [falsePat]; simp [str])]
      rfl
    · rw [if_neg (fun hc => h2 hc)] at h
      exact absurd rfl h

theorem fortranMatch_truePat (R : List Char) :
    fortranMatch (truePat ++ R) = some true := by
  rw [fortranMatch, if_pos (isPrefixOf_append_self _ _)]

theorem fortranMatch_falsePat (R : List Char) :
    fortranMatch (falsePat ++ R) = some false := by
  have hnt : ¬ truePat.isPrefixOf (falsePat ++ R) = true := by
    intro hpre
    have h17 := isPrefixOf_getElem? hpre (k := 17) (by rw [truePat]; simp [str])
    rw [List.getElem?_append_left
      (show (17 : Nat) < falsePat.length by rw [falsePat]; simp [str])] at h17
    exact absurd h17 (by decide)
  rw [fortranMatch, if_neg hnt, if_pos (isPrefixOf_append_self _ _)]

/-- The fortran_order scan of a generated dictionary finds the generated
boolean: the matched text sits right after the fortran_order key, and no
earlier position can match because a match forces a colon 15 characters in,
where the dictionary has none. -/
theorem scanFirst_fortran {dv sc tl : List Char} (mo : MemoryOrder)
    (hdv : ':' ∉ dv) (hsc : ':' ∉ sc) (htl : ':' ∉ tl) :
    scanFirst fortranMatch (dictParts dv (fortranChars mo) sc tl)
      = some (decide (mo = MemoryOrder.Fortran)) := by
  have htf : ':' ∉ fortranChars mo := by cases mo <;> decide
  have hassoc : dictParts dv (fortranChars mo) sc tl =
      (([braceL, quoteC] ++ str "descr" ++ [quoteC, ':', ' ']) ++ dv ++ [',', ' '])
        ++ ((quoteC :: str "fortran_order" ++ [quoteC, ':', ' ']) ++ (fortranChars mo
          ++ (([',', ' ', quoteC] ++ str "shape" ++ [quoteC, ':', ' ', '(']) ++ (sc ++ tl)))) := by
    simp [dictParts, List.append_assoc]
  have hlenA : (([braceL, quoteC] ++ str "descr" ++ [quoteC, ':', ' ']) ++ dv
      ++ [',', ' ']).length = 12 + dv.length := by
    simp [str]
    omega
  have hside : ∀ i, i < (([braceL, quoteC] ++ str "descr" ++ [quoteC, ':', ' ']) ++ dv
      ++ [',', ' ']).length →
      fortranMatch (((([braceL, quoteC] ++ str "descr" ++ [quoteC, ':', ' ']) ++ dv ++ [',', ' '])
        ++ ((quoteC :: str "fortran_order" ++ [quoteC, ':', ' ']) ++ (fortranChars mo
          ++ (([',', ' ', quoteC] ++ str "shape" ++ [quoteC, ':', ' ', '(']) ++ (sc ++ tl))))).drop i)
        = none := by
    intro i hi
    by_contra hc
    have h15 := fortranMatch_colon hc
    rw [List.getElem?_drop, ← hassoc] at h15
    rw [hlenA] at hi
    rcases dictParts_colon hdv htf hsc htl _ h15 with h | h | h
    · omega
    · omega
    · omega
  rw [hassoc, scanFirst_append fortranMatch _ _ hside]
  cases mo
  · have hform : (quoteC :: str "fortran_order" ++ [quoteC, ':', ' '])
        ++ (fortranChars MemoryOrder.Fortran
          ++ (([',', ' ', quoteC] ++ str "shape" ++ [quoteC, ':', ' ', '(']) ++ (sc ++ tl)))
        = truePat ++ (([',', ' ', quoteC] ++ str "shape" ++ [quoteC, ':', ' ', '(']) ++ (sc ++ tl)) := by
      simp [truePat, fortranChars, List.append_assoc]
    rw [hform, scanFirst_of_some (by simp [truePat]) (fortranMatch_truePat _)]
    rfl
  · have hform : (quoteC :: str "fortran_order" ++ [quoteC, ':', ' '])
        ++ (fortranChars MemoryOrder.C
          ++ (([',', ' ', quoteC] ++ str "shape" ++ [quoteC, ':', ' ', '(']) ++ (sc ++ tl)))
        = falsePat ++ (([',', ' ', quoteC] ++ str "shape" ++ [quoteC, ':', ' ', '(']) ++ (sc ++ tl)) := by
      simp [falsePat, fortranChars, List.append_assoc]
    rw [hform, scanFirst_of_some (by simp [falsePat]) (fortranMatch_falsePat _)]
    rfl

/-! ## Slicing the generated dictionary -/

theorem dictParts_drop_ten (dv tf sc tl : List Char) :
    (dictParts dv tf sc tl).drop 10 =
      dv ++ (([',', ' ', quoteC] ++ str "fortran_order" ++ [quoteC, ':', ' ']) ++ (tf
        ++ (([',', ' ', quoteC] ++ str "shape" ++ [quoteC, ':', ' ', '(']) ++ (sc ++ tl)))) := by
  have hassoc : dictParts dv tf sc tl =
      ([braceL, quoteC] ++ str "descr" ++ [quoteC, ':', ' ']) ++ (dv
        ++ (([',', ' ', quoteC] ++ str "fortran_order" ++ [quoteC, ':', ' ']) ++ (tf
        ++ (([',', ' ', quoteC] ++ str "shape" ++ [quoteC, ':', ' ', '(']) ++ (sc ++ tl))))) := by
    simp [dictParts, List.append_assoc]
  rw [hassoc,
    show (10 : Nat) = ([braceL, quoteC] ++ str "descr" ++ [quoteC, ':', ' ']).length from by
      simp [str],
    List.drop_left]

theorem dictParts_drop_shape {dv tf sc tl : List Char} :
    (dictParts dv tf sc tl).drop (31 + dv.length + tf.length) = shapeKey ++ (sc ++ tl) := by
  have hassoc : dictParts dv tf sc tl =
      (([braceL, quoteC] ++ str "descr" ++ [quoteC, ':', ' ']) ++ dv
        ++ ([',', ' ', quoteC] ++ str "fortran_order" ++ [quoteC, ':', ' ']) ++ tf
        ++ [',', ' ']) ++ (shapeKey ++ (sc ++ tl)) := by
    simp [dictParts, shapeKey, List.append_assoc]
  have hlen : (([braceL, quoteC] ++ str "descr" ++ [quoteC, ':', ' ']) ++ dv
      ++ ([',', ' ', quoteC] ++ str "fortran_order" ++ [quoteC, ':', ' ']) ++ tf
      ++ [',', ' ']).length = 31 + dv.length + tf.length := by
    simp [str]
    omega
  rw [hassoc, ← hlen, List.drop_left]

theorem findCharFrom_shape {dv tf sc : List Char} {n : Nat} (hsc : ')' ∉ sc) :
    findCharFrom ')' (dictParts dv tf sc (dictClose n)) (31 + dv.length + tf.length)
      = some (41 + dv.length + tf.length + sc.length) := by
  have hsplit : (dictParts dv tf sc (dictClose n)).drop (31 + dv.length + tf.length)
      = (shapeKey ++ sc) ++ ')' :: ([',', ' ', braceR]
          ++ List.replicate (16 - (10 + n) % 16 - 1) ' ' ++ [nlC]) := by
    rw [dictParts_drop_shape]
    simp [dictClose, List.append_assoc]
  have hA : ')' ∉ shapeKey ++ sc := by
    intro hmem
    rcases List.mem_append.mp hmem with h | h
    · revert h
      decide
    · exact hsc h
  rw [findCharFrom_of hsplit hA]
  congr 1
  rw [List.length_append, show shapeKey.length = 10 from by decide]
  omega

theorem dictParts_take_shape {dv tf sc tl : List Char} :
    ((dictParts dv tf sc tl).drop (31 + dv.length + tf.length)).take
      (41 + dv.length + tf.length + sc.length - (31 + dv.length + tf.length))
      = shapeKey ++ sc := by
  rw [dictParts_drop_shape]
  have h : 41 + dv.length + tf.length + sc.length - (31 + dv.length + tf.length)
      = (shapeKey ++ sc).length := by
    rw [List.length_append, show shapeKey.length = 10 from by decide]
    omega
  rw [h, ← List.append_assoc, List.take_left]

theorem dictParts_getD_descr (dv0 : Char) (dvr tf sc tl : List Char) :
    (dictParts (dv0 :: dvr) tf sc tl).getD (1 + descrKey.length) ' ' = dv0 := by
  have h10 : (1 : Nat) + descrKey.length = 10 + 0 := by
    rw [descrKey]
    simp [str]
  rw [List.getD_eq_getElem?_getD, h10, dictParts_getElem_dv tf sc tl (by simp)]
  simp

theorem shape_region_parses {shape : List Nat} (hne : shape ≠ [])
    (hdims : ∀ d ∈ shape, d ≤ 2147483647) :
    (digitRuns (shapeKey ++ shapeChars shape)).mapM stoiInt = .ok shape := by
  obtain ⟨s0, rest, hsh⟩ := List.exists_cons_of_ne_nil hne
  subst hsh
  rw [digitRuns_region (by decide) s0 rest]
  exact mapM_stoiInt_natChars _ hdims

/-! ## Locating the plain descriptor -/

theorem scanFirst_simpleDescr {dtype : Char} (hcls : letterClass dtype = true)
    (w : Nat) (tf sc tl : List Char) :
    scanFirst simpleDescrMatch ((dictParts (simpleDescrVal dtype w) tf sc tl).drop 1)
      = some ('<', dtype, natChars w) := by
  rw [dictParts_drop_one]
  have hside : ∀ i, i < descrKey.length →
      simpleDescrMatch ((descrKey ++ (simpleDescrVal dtype w
        ++ ([',', ' ', quoteC] ++ str "fortran_order" ++ [quoteC, ':', ' ']) ++ tf
        ++ ([',', ' ', quoteC] ++ str "shape" ++ [quoteC, ':', ' ', '(']) ++ sc ++ tl)).drop i)
        = none := by
    intro i hi
    rw [show descrKey.length = 9 from by decide] at hi
    interval_cases i
    · apply simpleDescrMatch_eq_none_snd
      refine ⟨?_, ?_, ?_⟩ <;>
        (rw [List.getElem?_drop, List.getElem?_append_left (by decide)]; decide)
    · apply simpleDescrMatch_eq_none_head
      rw [List.getElem?_drop, List.getElem?_append_left (by decide)]
      decide
    · apply simpleDescrMatch_eq_none_head
      rw [List.getElem?_drop, List.getElem?_append_left (by decide)]
      decide
    · apply simpleDescrMatch_eq_none_head
      rw [List.getElem?_drop, List.getElem?_append_left (by decide)]
      decide
    · apply simpleDescrMatch_eq_none_head
      rw [List.getElem?_drop, List.getElem?_append_left (by decide)]
      decide
    · apply simpleDescrMatch_eq_none_head
      rw [List.getElem?_drop, List.getElem?_append_left (by decide)]
      decide
    · apply simpleDescrMatch_eq_none_snd
      refine ⟨?_, ?_, ?_⟩ <;>
        (rw [List.getElem?_drop, List.getElem?_append_left (by decide)]; decide)
    · apply simpleDescrMatch_eq_none_head
      rw [List.getElem?_drop, List.getElem?_append_left (by decide)]
      decide
    · apply simpleDescrMatch_eq_none_head
      rw [List.getElem?_drop, List.getElem?_append_left (by decide)]
      decide
  rw [scanFirst_append simpleDescrMatch descrKey _ hside]
  have hassoc2 : simpleDescrVal dtype w
        ++ ([',', ' ', quoteC] ++ str "fortran_order" ++ [quoteC, ':', ' ']) ++ tf
        ++ ([',', ' ', quoteC] ++ str "shape" ++ [quoteC, ':', ' ', '(']) ++ sc ++ tl
      = simpleDescrVal dtype w
        ++ (([',', ' ', quoteC] ++ str "fortran_order" ++ [quoteC, ':', ' ']) ++ (tf
          ++ (([',', ' ', quoteC] ++ str "shape" ++ [quoteC, ':', ' ', '(']) ++ (sc ++ tl)))) := by
    simp [List.append_assoc]
  rw [hassoc2]
  exact scanFirst_of_some (by simp [simpleDescrVal]) (simpleDescrMatch_at hcls w _)

/-- parse_npy_dict inverts the plain (single-type) header generator: the
generated dictionary parses back to one word size, one type character, no
labels, the written shape and the written memory order. -/
theorem parse_dict_simpleDescr (dtype : Char) (w : Nat) (mo : MemoryOrder)
    (shape : List Nat) (hdt : dtype.isLower = true) (hw : w ≤ 2147483647)
    (hshape : shape ≠ []) (hdims : ∀ d ∈ shape, d ≤ 2147483647) :
    parse_npy_dict (padDict (rawDict (simpleDescrVal dtype w) mo shape)) =
      .ok ⟨[w], [dtype], [], shape, mo⟩ := by
  obtain ⟨hc1, hc2, hc3, hc4, hc5, hc6, hc7, hc8, hc9, hc10, hc11, hc12⟩ := isLower_ne hdt
  have hdv : ':' ∉ simpleDescrVal dtype w := by
    intro hmem
    rcases simpleDescrVal_mem _ hmem with h | h | h | h
    · exact absurd h (by decide)
    · exact absurd h (by decide)
    · exact hc1 h.symm
    · exact absurd h (by decide)
  have htf : ':' ∉ fortranChars mo := by cases mo <;> decide
  have hsc : ':' ∉ shapeChars shape :=
    shapeChars_not_mem (by decide) (by decide) (by decide) shape
  have hscp : ')' ∉ shapeChars shape :=
    shapeChars_not_mem (by decide) (by decide) (by decide) shape
  have htl : ':' ∉ dictClose (rawDict (simpleDescrVal dtype w) mo shape).length :=
    dictClose_not_mem (by decide) (by decide) (by decide) (by decide) (by decide) _
  have hhead : (padDict (rawDict (simpleDescrVal dtype w) mo shape)).head?
      = some braceL := by
    rw [padDict_rawDict, dictParts]
    rfl
  have hgetD : (dictParts (simpleDescrVal dtype w) (fortranChars mo) (shapeChars shape)
      (dictClose (rawDict (simpleDescrVal dtype w) mo shape).length)).getD
      (1 + descrKey.length) ' ' = quoteC := by
    rw [show simpleDescrVal dtype w
        = quoteC :: BigEndianTestChar :: dtype :: (natChars w ++ [quoteC]) from rfl]
    exact dictParts_getD_descr _ _ _ _ _
  rw [parse_npy_dict]
  rw [if_neg (by rw [padDict_getLast]; exact fun hc => hc rfl)]
  rw [if_neg (by rw [hhead]; exact fun hc => hc rfl)]
  rw [padDict_rawDict]
  simp only [scanFirst_fortran mo hdv hsc htl]
  simp only [firstOccurIdx_shapeKey hdv htf hsc htl]
  simp only [findCharFrom_shape hscp]
  rw [dictParts_take_shape]
  simp only [shape_region_parses hshape hdims]
  simp only [firstOccurIdx_descrKey]
  rw [hgetD, if_pos rfl]
  simp only [scanFirst_simpleDescr hc12 w]
  rw [if_neg (by decide)]
  simp only [stoiInt_natChars hw]
  cases mo <;> rfl

/-! ## Scanning the structured descriptor tuples -/

theorem tupleScanAux_succ (fuel : Nat) (s : List Char) :
    tupleScanAux (fuel + 1) s =
      match matchTuple s with
      | some (lbl, e, c, ds) =>
        (lbl, e, c, ds) :: tupleScanAux fuel (s.drop (lbl.length + ds.length + 10))
      | none =>
        match s with
        | [] => []
        | _ :: t => tupleScanAux fuel t := rfl


theorem tupleScanAux_of_no_match : ∀ (fuel : Nat) (Z : List Char),
    (∀ i, matchTuple (Z.drop i) = none) → tupleScanAux fuel Z = [] := by
  intro fuel
  induction fuel with
  | zero =>
    intro Z h
    rfl
  | succ f ih =>
    intro Z h
    have h0 := h 0
    rw [List.drop_zero] at h0
    rw [tupleScanAux_succ]
    simp only [h0]
    cases Z with
    | nil => rfl
    | cons c t =>
      exact ih t (fun i => by have := h (i + 1); simpa using this)

theorem no_match_nil : ∀ i, matchTuple (([] : List Char).drop i) = none := by
  intro i
  rw [List.drop_nil]
  rfl

theorem no_match_comma : ∀ i, matchTuple (([','] : List Char).drop i) = none := by
  intro i
  cases i with
  | zero => rfl
  | succ n =>
    rw [List.drop_succ_cons, List.drop_nil]
    rfl

theorem tupleScanAux_fields : ∀ (fs : List (List Char × Char × Nat)) (Z : List Char)
    (fuel : Nat),
    (∀ f ∈ fs, f.1 ≠ [] ∧ (∀ c ∈ f.1, wordChar c = true) ∧ letterClass f.2.1 = true) →
    (∀ i, matchTuple (Z.drop i) = none) →
    (fieldsChars fs ++ Z).length ≤ fuel →
    tupleScanAux fuel (fieldsChars fs ++ Z)
      = fs.map (fun f => (f.1, '<', f.2.1, natChars f.2.2)) := by
  intro fs
  induction fs with
  | nil =>
    intro Z fuel hwf hZ hfuel
    rw [show fieldsChars [] = [] from rfl, List.nil_append, List.map_nil]
    exact tupleScanAux_of_no_match fuel Z hZ
  | cons f fs' ih =>
    intro Z fuel hwf hZ hfuel
    obtain ⟨lbl, dt, sz⟩ := f
    obtain ⟨hne, hw, hcls⟩ := hwf (lbl, dt, sz) (by simp)
    cases fs' with
    | nil =>
      rw [show fieldsChars [(lbl, dt, sz)] = tupleChars (lbl, dt, sz) from rfl] at hfuel ⊢
      have hlen : (tupleChars (lbl, dt, sz)).length
          = lbl.length + (natChars sz).length + 10 := by
        simp [tupleChars]
        omega
      obtain ⟨fu, rfl⟩ : ∃ fu, fuel = fu + 1 :=
        ⟨fuel - 1, by rw [List.length_append, hlen] at hfuel; omega⟩
      rw [tupleScanAux_succ]
      simp only [matchTuple_at sz hne hw hcls Z]
      have hdrop : (tupleChars (lbl, dt, sz) ++ Z).drop
          (lbl.length + (natChars sz).length + 10) = Z := by
        rw [← hlen, List.drop_left]
      rw [hdrop, tupleScanAux_of_no_match fu Z hZ]
      simp
    | cons g t =>
      have hsplit : fieldsChars ((lbl, dt, sz) :: g :: t) ++ Z
          = tupleChars (lbl, dt, sz)
            ++ (',' :: ' ' :: (fieldsChars (g :: t) ++ Z)) := by
        rw [show fieldsChars ((lbl, dt, sz) :: g :: t)
            = tupleChars (lbl, dt, sz) ++ (',' :: ' ' :: fieldsChars (g :: t)) from rfl]
        simp [List.append_assoc]
      rw [hsplit] at hfuel ⊢
      have hlen : (tupleChars (lbl, dt, sz)).length
          = lbl.length + (natChars sz).length + 10 := by
        simp [tupleChars]
        omega
      obtain ⟨fu, rfl⟩ : ∃ fu, fuel = fu + 1 + 1 + 1 :=
        ⟨fuel - 3, by rw [List.length_append, hlen] at hfuel; simp at hfuel; omega⟩
      rw [tupleScanAux_succ]
      simp only [matchTuple_at sz hne hw hcls _]
      have hdrop : (tupleChars (lbl, dt, sz)
          ++ (',' :: ' ' :: (fieldsChars (g :: t) ++ Z))).drop
          (lbl.length + (natChars sz).length + 10)
          = ',' :: ' ' :: (fieldsChars (g :: t) ++ Z) := by
        rw [← hlen, List.drop_left]
      have hm1 : matchTuple (',' :: ' ' :: (fieldsChars (g :: t) ++ Z)) = none :=
        matchTuple_eq_none_head (by simp)
      have hm2 : matchTuple (' ' :: (fieldsChars (g :: t) ++ Z)) = none :=
        matchTuple_eq_none_head (by simp)
      rw [hdrop, tupleScanAux_succ]
      simp only [hm1]
      rw [tupleScanAux_succ]
      simp only [hm2]
      rw [ih Z fu (fun x hx => hwf x (by simp [hx])) hZ
        (by rw [List.length_append, hlen] at hfuel; simp at hfuel; rw [List.length_append]; omega)]
      simp

theorem buildFields_map (fs : List (List Char × Char × Nat))
    (hsz : ∀ f ∈ fs, f.2.2 ≤ 2147483647) :
    buildFields (fs.map (fun f => (f.1, '<', f.2.1, natChars f.2.2)))
      = .ok (fs.map (fun f => f.2.2), fs.map (fun f => f.2.1), fs.map (fun f => f.1)) := by
  induction fs with
  | nil => rfl
  | cons f t ih =>
    rw [List.map_cons, buildFields, if_neg (by decide),
      stoiInt_natChars (hsz f (by simp))]
    simp only []
    rw [ih (fun x hx => hsz x (by simp [hx]))]
    simp only []
    simp

/-! ## Character membership of structured descriptors -/

theorem tupleChars_mem {x : Char} {lbl : List Char} {dt : Char} {sz : Nat}
    (hx : x ∈ tupleChars (lbl, dt, sz)) :
    x ∈ lbl ∨ x = dt ∨ x.isDigit = true
      ∨ x ∈ (['(', ')', quoteC, ',', ' ', '<'] : List Char) := by
  rw [tupleChars] at hx
  rcases List.mem_append.mp hx with hx | hx
  · rcases List.mem_append.mp hx with hx | hx
    · rcases List.mem_append.mp hx with hx | hx
      · rcases List.mem_append.mp hx with hx | hx
        · rcases List.mem_cons.mp hx with rfl | hx
          · exact Or.inr (Or.inr (Or.inr (by decide)))
          · rw [List.mem_singleton] at hx
            subst hx
            exact Or.inr (Or.inr (Or.inr (by decide)))
        · exact Or.inl hx
      · rcases List.mem_cons.mp hx with rfl | hx
        · exact Or.inr (Or.inr (Or.inr (by decide)))
        rcases List.mem_cons.mp hx with rfl | hx
        · exact Or.inr (Or.inr (Or.inr (by decide)))
        rcases List.mem_cons.mp hx with rfl | hx
        · exact Or.inr (Or.inr (Or.inr (by decide)))
        rcases List.mem_cons.mp hx with rfl | hx
        · exact Or.inr (Or.inr (Or.inr (by decide)))
        rcases List.mem_cons.mp hx with rfl | hx
        · exact Or.inr (Or.inr (Or.inr (by decide)))
        rw [List.mem_singleton] at hx
        subst hx
        exact Or.inr (Or.inl rfl)
    · exact Or.inr (Or.inr (Or.inl (natChars_digits _ _ hx)))
  · rcases List.mem_cons.mp hx with rfl | hx
    · exact Or.inr (Or.inr (Or.inr (by decide)))
    · rw [List.mem_singleton] at hx
      subst hx
      exact Or.inr (Or.inr (Or.inr (by decide)))

theorem fieldsChars_mem {x : Char} : ∀ (fs : List (List Char × Char × Nat)),
    x ∈ fieldsChars fs →
    (∃ f ∈ fs, x ∈ f.1 ∨ x = f.2.1) ∨ x.isDigit = true
      ∨ x ∈ (['(', ')', quoteC, ',', ' ', '<'] : List Char) := by
  intro fs
  induction fs with
  | nil =>
    intro hx
    cases hx
  | cons f fs' ih =>
    intro hx
    cases fs' with
    | nil =>
      obtain ⟨lbl, dt, sz⟩ := f
      rw [show fieldsChars [(lbl, dt, sz)] = tupleChars (lbl, dt, sz) from rfl] at hx
      rcases tupleChars_mem hx with h | h | h | h
      · exact Or.inl ⟨(lbl, dt, sz), by simp, Or.inl h⟩
      · exact Or.inl ⟨(lbl, dt, sz), by simp, Or.inr h⟩
      · exact Or.inr (Or.inl h)
      · exact Or.inr (Or.inr h)
    | cons g t =>
      obtain ⟨lbl, dt, sz⟩ := f
      rw [show fieldsChars ((lbl, dt, sz) :: g :: t)
          = tupleChars (lbl, dt, sz) ++ (',' :: ' ' :: fieldsChars (g :: t)) from rfl] at hx
      rcases List.mem_append.mp hx with h | h
      · rcases tupleChars_mem h with h | h | h | h
        · exact Or.inl ⟨(lbl, dt, sz), by simp, Or.inl h⟩
        · exact Or.inl ⟨(lbl, dt, sz), by simp, Or.inr h⟩
        · exact Or.inr (Or.inl h)
        · exact Or.inr (Or.inr h)
      · rcases List.mem_cons.mp h with rfl | h
        · exact Or.inr (Or.inr (by decide))
        rcases List.mem_cons.mp h with rfl | h
        · exact Or.inr (Or.inr (by decide))
        rcases ih h with ⟨f2, hf2, hh⟩ | h | h
        · exact Or.inl ⟨f2, by simp [hf2], hh⟩
        · exact Or.inr (Or.inl h)
        · exact Or.inr (Or.inr h)

theorem fieldsChars_not_mem {x : Char} {fs : List (List Char × Char × Nat)}
    (hlbl : ∀ f ∈ fs, ∀ c ∈ f.1, wordChar c = true)
    (hdt : ∀ f ∈ fs, (f.2.1).isLower = true)
    (hw : wordChar x = false) (hlow : x.isLower = false) (hdig : x.isDigit = false)
    (hset : x ∉ (['(', ')', quoteC, ',', ' ', '<'] : List Char)) :
    x ∉ fieldsChars fs := by
  intro hmem
  rcases fieldsChars_mem fs hmem with ⟨f, hf, h | h⟩ | h | h
  · have := hlbl f hf x h
    rw [hw] at this
    cases this
  · have := hdt f hf
    rw [← h, hlow] at this
    cases this
  · rw [hdig] at h
    cases h
  · exact hset h

theorem structDescrVal_not_mem {x : Char} {fs : List (List Char × Char × Nat)}
    (hfc : x ∉ fieldsChars fs) (hco : x ≠ ',')
    (hlb : x ≠ '[') (hrb : x ≠ ']') :
    x ∉ structDescrVal fs := by
  intro hmem
  rw [structDescrVal] at hmem
  rcases List.mem_cons.mp hmem with rfl | hmem
  · exact hlb rfl
  rcases List.mem_append.mp hmem with h | h
  · rcases List.mem_append.mp h with h | h
    · exact hfc h
    · split at h
      · rw [List.mem_singleton] at h
        exact hco h
      · cases h
  · rw [List.mem_singleton] at h
    exact hrb h

/-! ## Parsing the structured descriptor -/

theorem dictParts_drop_ten_struct {fs : List (List Char × Char × Nat)}
    (tf sc tl : List Char) :
    (dictParts (structDescrVal fs) tf sc tl).drop 10
      = ('[' :: (fieldsChars fs ++ (if fs.length = 1 then [','] else []))) ++ (']' ::
        (([',', ' ', quoteC] ++ str "fortran_order" ++ [quoteC, ':', ' ']) ++ (tf
          ++ (([',', ' ', quoteC] ++ str "shape" ++ [quoteC, ':', ' ', '(']) ++ (sc ++ tl))))) := by
  rw [dictParts_drop_ten, structDescrVal]
  simp [List.append_assoc]

theorem findCharFrom_bracket {fs : List (List Char × Char × Nat)} (tf sc tl : List Char)
    (hfc : ']' ∉ fieldsChars fs) :
    findCharFrom ']' (dictParts (structDescrVal fs) tf sc tl) 10
      = some ((fieldsChars fs ++ (if fs.length = 1 then [','] else [])).length + 11) := by
  have hmc : ']' ∉ (if fs.length = 1 then ([','] : List Char) else []) := by
    split <;> decide
  have hA : ']' ∉ '[' :: (fieldsChars fs ++ (if fs.length = 1 then [','] else [])) := by
    intro hmem
    rcases List.mem_cons.mp hmem with h | h
    · exact absurd h (by decide)
    rcases List.mem_append.mp h with h | h
    · exact hfc h
    · exact hmc h
  rw [findCharFrom_of (dictParts_drop_ten_struct tf sc tl) hA]
  congr 1

theorem take_bracket_region {fs : List (List Char × Char × Nat)} (tf sc tl : List Char) :
    ((dictParts (structDescrVal fs) tf sc tl).drop 10).take
      ((fieldsChars fs ++ (if fs.length = 1 then [','] else [])).length + 11 - 10)
      = '[' :: (fieldsChars fs ++ (if fs.length = 1 then [','] else [])) := by
  rw [dictParts_drop_ten_struct]
  rw [show (fieldsChars fs ++ (if fs.length = 1 then [','] else [])).length + 11 - 10
      = ('[' :: (fieldsChars fs ++ (if fs.length = 1 then [','] else []))).length from by
    rw [List.length_cons]
    omega]
  exact List.take_left _ _

theorem tupleScan_region {fs : List (List Char × Char × Nat)}
    (hwf : ∀ f ∈ fs, f.1 ≠ [] ∧ (∀ c ∈ f.1, wordChar c = true)
      ∧ letterClass f.2.1 = true) :
    tupleScan ('[' :: (fieldsChars fs ++ (if fs.length = 1 then [','] else [])))
      = fs.map (fun f => (f.1, '<', f.2.1, natChars f.2.2)) := by
  rw [tupleScan]
  rw [show ('[' :: (fieldsChars fs ++ (if fs.length = 1 then [','] else []))).length
      = (fieldsChars fs ++ (if fs.length = 1 then [','] else [])).length + 1 from
      List.length_cons _ _]
  have hm : matchTuple ('[' :: (fieldsChars fs
      ++ (if fs.length = 1 then [','] else []))) = none :=
    matchTuple_eq_none_head (by simp)
  rw [tupleScanAux_succ]
  simp only [hm]
  by_cases h1 : fs.length = 1
  · simp only [if_pos h1]
    exact tupleScanAux_fields fs [','] _ hwf no_match_comma (le_refl _)
  · simp only [if_neg h1]
    exact tupleScanAux_fields fs [] _ hwf no_match_nil (le_refl _)

/-- parse_npy_dict inverts the structured header generator: a generated
tuple-list dictionary whose labels are nonempty words and whose type
characters are lowercase letters parses back to the written word sizes,
type characters, labels, shape and memory order, in field order. -/
theorem parse_dict_structDescr (fs : List (List Char × Char × Nat)) (mo : MemoryOrder)
    (shape : List Nat)
    (hwf : ∀ f ∈ fs, f.1 ≠ [] ∧ (∀ c ∈ f.1, wordChar c = true) ∧ (f.2.1).isLower = true)
    (hsz : ∀ f ∈ fs, f.2.2 ≤ 2147483647)
    (hshape : shape ≠ []) (hdims : ∀ d ∈ shape, d ≤ 2147483647) :
    parse_npy_dict (padDict (rawDict (structDescrVal fs) mo shape)) =
      .ok ⟨fs.map (fun f => f.2.2), fs.map (fun f => f.2.1), fs.map (fun f => f.1),
        shape, mo⟩ := by
  have hlbl : ∀ f ∈ fs, ∀ c ∈ f.1, wordChar c = true := fun f hf => (hwf f hf).2.1
  have hdts : ∀ f ∈ fs, (f.2.1).isLower = true := fun f hf => (hwf f hf).2.2
  have hwf2 : ∀ f ∈ fs, f.1 ≠ [] ∧ (∀ c ∈ f.1, wordChar c = true)
      ∧ letterClass f.2.1 = true := by
    intro f hf
    refine ⟨(hwf f hf).1, (hwf f hf).2.1, ?_⟩
    obtain ⟨-, -, -, -, -, -, -, -, -, -, -, h12⟩ := isLower_ne (hdts f hf)
    exact h12
  have hdv : ':' ∉ structDescrVal fs :=
    structDescrVal_not_mem
      (fieldsChars_not_mem hlbl hdts (by decide) (by decide) (by decide) (by decide))
      (by decide) (by decide) (by decide)
  have hbrF : ']' ∉ fieldsChars fs :=
    fieldsChars_not_mem hlbl hdts (by decide) (by decide) (by decide) (by decide)
  have htf : ':' ∉ fortranChars mo := by cases mo <;> decide
  have hsc : ':' ∉ shapeChars shape :=
    shapeChars_not_mem (by decide) (by decide) (by decide) shape
  have hscp : ')' ∉ shapeChars shape :=
    shapeChars_not_mem (by decide) (by decide) (by decide) shape
  have htl : ':' ∉ dictClose (rawDict (structDescrVal fs) mo shape).length :=
    dictClose_not_mem (by decide) (by decide) (by decide) (by decide) (by decide) _
  have hhead : (padDict (rawDict (structDescrVal fs) mo shape)).head? = some braceL := by
    rw [padDict_rawDict, dictParts]
    rfl
  have hgetD : (dictParts (structDescrVal fs) (fortranChars mo) (shapeChars shape)
      (dictClose (rawDict (structDescrVal fs) mo shape).length)).getD
      (1 + descrKey.length) ' ' = '[' := by
    rw [show structDescrVal fs
        = '[' :: (fieldsChars fs ++ (if fs.length = 1 then [','] else []) ++ [']'])
        from rfl]
    exact dictParts_getD_descr _ _ _ _ _
  rw [parse_npy_dict]
  rw [if_neg (by rw [padDict_getLast]; exact fun hc => hc rfl)]
  rw [if_neg (by rw [hhead]; exact fun hc => hc rfl)]
  rw [padDict_rawDict]
  simp only [scanFirst_fortran mo hdv hsc htl]
  simp only [firstOccurIdx_shapeKey hdv htf hsc htl]
  simp only [findCharFrom_shape hscp]
  rw [dictParts_take_shape]
  simp only [shape_region_parses hshape hdims]
  simp only [firstOccurIdx_descrKey]
  rw [hgetD]
  rw [if_neg (by decide)]
  rw [if_pos rfl]
  rw [show (1 : Nat) + descrKey.length = 10 from by decide]
  simp only [findCharFrom_bracket (fortranChars mo) (shapeChars shape) _ hbrF]
  rw [take_bracket_region]
  rw [tupleScan_region hwf2]
  rw [buildFields_map fs hsz]
  simp only []
  cases mo <;> rfl

/-! ## Parsing a generated header -/

/-- The stream header parser on a generated header followed by arbitrary
payload: the magic and version checks pass, the recorded 16-bit dictionary
length recovers the dictionary exactly when it is below 65536, and the
parser hands the dictionary to parse_npy_dict, returning the position right
after the header. -/
theorem parse_header_of (d : List Char) (pd : ParsedDict) (payload : List Char)
    (hd : parse_npy_dict (padDict d) = .ok pd)
    (hlen : (padDict d).length < 65536) :
    parse_npy_header (headerOf (padDict d) ++ payload)
      = .ok (pd, 10 + (padDict d).length) := by
  have hsplit : headerOf (padDict d) ++ payload
      = (magicChars ++ [Char.ofNat 1, Char.ofNat 0, Char.ofNat ((padDict d).length % 256),
          Char.ofNat ((padDict d).length % 65536 / 256)]) ++ (padDict d ++ payload) := by
    simp [headerOf, magicChars, List.append_assoc]
  have hpre : magicChars.isPrefixOf (headerOf (padDict d) ++ payload) = true := by
    rw [hsplit,
      show (magicChars ++ [Char.ofNat 1, Char.ofNat 0,
          Char.ofNat ((padDict d).length % 256),
          Char.ofNat ((padDict d).length % 65536 / 256)]) ++ (padDict d ++ payload)
        = magicChars ++ ([Char.ofNat 1, Char.ofNat 0,
            Char.ofNat ((padDict d).length % 256),
            Char.ofNat ((padDict d).length % 65536 / 256)] ++ (padDict d ++ payload)) from by
        simp [List.append_assoc]]
    exact isPrefixOf_append_self _ _
  have h6 : (headerOf (padDict d) ++ payload).getD 6 (Char.ofNat 0) = Char.ofNat 1 := by
    rw [List.getD_eq_getElem?_getD, hsplit]
    rfl
  have h7 : (headerOf (padDict d) ++ payload).getD 7 (Char.ofNat 0) = Char.ofNat 0 := by
    rw [List.getD_eq_getElem?_getD, hsplit]
    rfl
  have h8 : (headerOf (padDict d) ++ payload).getD 8 (Char.ofNat 0)
      = Char.ofNat ((padDict d).length % 256) := by
    rw [List.getD_eq_getElem?_getD, hsplit]
    rfl
  have h9 : (headerOf (padDict d) ++ payload).getD 9 (Char.ofNat 0)
      = Char.ofNat ((padDict d).length % 65536 / 256) := by
    rw [List.getD_eq_getElem?_getD, hsplit]
    simp [magicChars, str]
  have hdrop : (headerOf (padDict d) ++ payload).drop 10 = padDict d ++ payload := by
    rw [hsplit]
    rfl
  have harith : (Char.ofNat ((padDict d).length % 256)).toNat
      + 256 * (Char.ofNat ((padDict d).length % 65536 / 256)).toNat
      = (padDict d).length := by
    rw [charOfNat_toNat (by omega), charOfNat_toNat (by omega)]
    omega
  rw [parse_npy_header]
  rw [if_neg (by rw [hpre]; exact fun hc => hc rfl)]
  rw [if_neg (by rw [h6, h7]; exact fun hc => hc ⟨rfl, rfl⟩)]
  rw [h8, h9, harith, hdrop, List.take_left]
  rw [hd]

/-- npy_load on a generated header followed by payload bytes that fit the
recorded element count: the returned object carries the parsed metadata and
exactly the payload bytes. -/
theorem npy_load_of (d : List Char) (pd : ParsedDict) (payload : List Char)
    (hd : parse_npy_dict (padDict d) = .ok pd)
    (hlen : (padDict d).length < 65536)
    (hpay : payload.length ≤ pd.word_sizes.foldl (· + ·) 0 * pd.shape.foldl (· * ·) 1) :
    npy_load (headerOf (padDict d) ++ payload)
      = .ok ⟨pd.shape, pd.word_sizes, pd.labels, pd.memory_order, payload⟩ := by
  rw [npy_load]
  simp only [parse_header_of d pd payload hd hlen]
  have hdrop : (headerOf (padDict d) ++ payload).drop (10 + (padDict d).length)
      = payload := by
    rw [show (10 : Nat) + (padDict d).length = (headerOf (padDict d)).length from
      (headerOf_length (padDict d)).symm, List.drop_left]
  rw [hdrop, List.take_of_length_le hpay]

/-! ## C1: save/load round trip -/

/-- C1: an array written by npy_save in mode "w" loads back with the same
shape, word sizes, labels, memory order and payload bytes.  This holds for
plain arrays (lowercase dtype letter, dimensions and word size within
int range, dictionary under the 16-bit length limit, payload of the declared
size) and for structured arrays whose labels are nonempty strings of word
characters. -/
theorem npy_save_load_roundtrip :
    (∀ (shape : List Nat) (dtype : Char) (w : Nat) (mo : MemoryOrder)
        (payload : List Char),
      dtype.isLower = true → w ≤ 2147483647 → shape ≠ [] →
      (∀ d ∈ shape, d ≤ 2147483647) →
      (padDict (rawDict (simpleDescrVal dtype w) mo shape)).length < 65536 →
      payload.length = w * shape.foldl (· * ·) 1 →
      npy_load (npy_save_w shape dtype w mo payload)
        = .ok ⟨shape, [w], [], mo, payload⟩)
    ∧ (∀ (shape : List Nat) (labels : List (List Char)) (dtypes : List Char)
        (sizes : List Nat) (mo : MemoryOrder) (payload : List Char),
      labels.length = dtypes.length → dtypes.length = sizes.length →
      (∀ l ∈ labels, l ≠ [] ∧ ∀ c ∈ l, wordChar c = true) →
      (∀ c ∈ dtypes, c.isLower = true) →
      (∀ z ∈ sizes, z ≤ 2147483647) →
      shape ≠ [] → (∀ d ∈ shape, d ≤ 2147483647) →
      (padDict (rawDict (structDescrVal (labels.zip (dtypes.zip sizes)))
        mo shape)).length < 65536 →
      payload.length = sizes.foldl (· + ·) 0 * shape.foldl (· * ·) 1 →
      (npy_save_structured_w shape labels dtypes sizes mo payload).bind npy_load
        = .ok ⟨shape, sizes, labels, mo, payload⟩) := by
  constructor
  · intro shape dtype w mo payload hdt hw hne hdims hlen hpay
    have hpd := parse_dict_simpleDescr dtype w mo shape hdt hw hne hdims
    have hle : payload.length ≤
        (ParsedDict.mk [w] [dtype] [] shape mo).word_sizes.foldl (· + ·) 0
          * (ParsedDict.mk [w] [dtype] [] shape mo).shape.foldl (· * ·) 1 := by
      rw [hpay]
      simp [List.foldl]
    rw [show npy_save_w shape dtype w mo payload
        = headerOf (padDict (rawDict (simpleDescrVal dtype w) mo shape)) ++ payload
        from rfl]
    rw [npy_load_of _ _ _ hpd hlen hle]
  · intro shape labels dtypes sizes mo payload hl1 hl2 hlbl hdts hsz hne hdims hlen hpay
    have hzl1 : (dtypes.zip sizes).length = labels.length := by
      rw [List.length_zip, hl1, ← hl2, Nat.min_self]
    have hwf : ∀ f ∈ labels.zip (dtypes.zip sizes),
        f.1 ≠ [] ∧ (∀ c ∈ f.1, wordChar c = true) ∧ (f.2.1).isLower = true := by
      intro f hf
      obtain ⟨lbl, dt, sz⟩ := f
      obtain ⟨hmlbl, hmz⟩ := List.of_mem_zip hf
      obtain ⟨hmdt, hmsz⟩ := List.of_mem_zip hmz
      exact ⟨(hlbl lbl hmlbl).1, (hlbl lbl hmlbl).2, hdts dt hmdt⟩
    have hszf : ∀ f ∈ labels.zip (dtypes.zip sizes), f.2.2 ≤ 2147483647 := by
      intro f hf
      obtain ⟨lbl, dt, sz⟩ := f
      obtain ⟨hmlbl, hmz⟩ := List.of_mem_zip hf
      obtain ⟨hmdt, hmsz⟩ := List.of_mem_zip hmz
      exact hsz sz hmsz
    have hpd := parse_dict_structDescr (labels.zip (dtypes.zip sizes)) mo shape
      hwf hszf hne hdims
    have hm3 : (labels.zip (dtypes.zip sizes)).map (fun f => f.1) = labels :=
      List.map_fst_zip labels (dtypes.zip sizes) (by omega)
    have hm2 : (labels.zip (dtypes.zip sizes)).map (fun f => f.2.1) = dtypes := by
      rw [show (fun (f : List Char × Char × Nat) => f.2.1)
          = Prod.fst ∘ Prod.snd from rfl, ← List.map_map,
        List.map_snd_zip labels (dtypes.zip sizes) (by omega),
        List.map_fst_zip dtypes sizes (by omega)]
    have hm1 : (labels.zip (dtypes.zip sizes)).map (fun f => f.2.2) = sizes := by
      rw [show (fun (f : List Char × Char × Nat) => f.2.2)
          = Prod.snd ∘ Prod.snd from rfl, ← List.map_map,
        List.map_snd_zip labels (dtypes.zip sizes) (by omega),
        List.map_snd_zip dtypes sizes (by omega)]
    rw [hm1, hm2, hm3] at hpd
    have hlen3 : sizes.length = labels.length := (hl1.trans hl2).symm
    rw [npy_save_structured_w, create_npy_header_structured,
      if_neg (by push_neg; exact ⟨hl1, hl2, hlen3⟩)]
    simp only [Except.bind]
    rw [npy_load_of _ _ _ hpd hlen (le_of_eq hpay)]

/-- Witness: a 2-by-3 array of 8-byte floats and a one-field structured
array both round-trip through save and load. -/
theorem npy_save_load_roundtrip_witness :
    npy_load (npy_save_w [2, 3] 'f' 8 MemoryOrder.C (List.replicate 48 'x'))
      = .ok ⟨[2, 3], [8], [], MemoryOrder.C, List.replicate 48 'x'⟩
    ∧ (npy_save_structured_w [2] [['a', 'b']] ['i'] [4] MemoryOrder.C
        (List.replicate 8 'p')).bind npy_load
      = .ok ⟨[2], [4], [['a', 'b']], MemoryOrder.C, List.replicate 8 'p'⟩ :=
  ⟨npy_save_load_roundtrip.1 [2, 3] 'f' 8 MemoryOrder.C (List.replicate 48 'x')
      (by decide) (by decide) (by decide) (by decide) (by decide) (by decide),
    npy_save_load_roundtrip.2 [2] [['a', 'b']] ['i'] [4] MemoryOrder.C
      (List.replicate 8 'p') rfl rfl (by decide) (by decide) (by decide) (by decide)
      (by decide) (by decide) (by decide)⟩

/-- A structured save whose single label contains a space (not a word
character) does NOT round-trip: the tuple regex never matches, so the load
returns no fields, no labels and an empty payload, losing the saved data. -/
theorem roundtrip_label_counterexample :
    (npy_save_structured_w [2] [['a', ' ', 'b']] ['i'] [4] MemoryOrder.C
        (str "p1p2p3p4")).bind npy_load
      = .ok ⟨[2], [], [], MemoryOrder.C, []⟩
    ∧ (⟨[2], [], [], MemoryOrder.C, []⟩ : NpyArrayModel)
      ≠ ⟨[2], [4], [['a', ' ', 'b']], MemoryOrder.C, str "p1p2p3p4"⟩ :=
  ⟨by rfl, by decide⟩

/-! ## C3: RowMajor append round trip -/

/-- C3: writing shape (a,b,c) RowMajor and appending shape (a2,b,c) yields
the regenerated header for (a+a2,b,c) followed by both payloads, and the
file loads as the combined array — provided the regenerated header has the
same length as the original, so that overwriting it in place does not shift
the payload. -/
theorem append_rowmajor_roundtrip (a b c a2 : Nat) (dtype : Char) (w : Nat)
    (p1 p2 : List Char)
    (hdt : dtype.isLower = true) (hw : w ≤ 2147483647)
    (ha : a ≤ 2147483647) (hb : b ≤ 2147483647) (hc : c ≤ 2147483647)
    (ha2 : a + a2 ≤ 2147483647)
    (hlen1 : (padDict (rawDict (simpleDescrVal dtype w)
      MemoryOrder.C [a, b, c])).length < 65536)
    (hlen2 : (padDict (rawDict (simpleDescrVal dtype w)
      MemoryOrder.C [a + a2, b, c])).length < 65536)
    (hsame : (create_npy_header [a + a2, b, c] dtype w MemoryOrder.C).length
      = (create_npy_header [a, b, c] dtype w MemoryOrder.C).length)
    (hp1 : p1.length = w * (a * b * c)) (hp2 : p2.length = w * (a2 * b * c)) :
    npy_save_append (npy_save_w [a, b, c] dtype w MemoryOrder.C p1)
        dtype w MemoryOrder.C [a2, b, c] p2
      = .ok (create_npy_header [a + a2, b, c] dtype w MemoryOrder.C ++ (p1 ++ p2))
    ∧ npy_load (create_npy_header [a + a2, b, c] dtype w MemoryOrder.C ++ (p1 ++ p2))
      = .ok ⟨[a + a2, b, c], [w], [], MemoryOrder.C, p1 ++ p2⟩ := by
  have hdims1 : ∀ d ∈ [a, b, c], d ≤ 2147483647 := by
    intro d hd
    simp at hd
    rcases hd with rfl | rfl | rfl <;> assumption
  have hdims2 : ∀ d ∈ [a + a2, b, c], d ≤ 2147483647 := by
    intro d hd
    simp at hd
    rcases hd with rfl | rfl | rfl <;> assumption
  have hpd1 := parse_dict_simpleDescr dtype w MemoryOrder.C [a, b, c] hdt hw
    (by simp) hdims1
  have hpd2 := parse_dict_simpleDescr dtype w MemoryOrder.C [a + a2, b, c] hdt hw
    (by simp) hdims2
  have hparse := parse_header_of _ _ p1 hpd1 hlen1
  have hdrop : (headerOf (padDict (rawDict (simpleDescrVal dtype w)
        MemoryOrder.C [a, b, c])) ++ p1).drop
        (create_npy_header ((a + a2) :: [b, c]) dtype w MemoryOrder.C).length = p1 := by
    rw [show create_npy_header ((a + a2) :: [b, c]) dtype w MemoryOrder.C
        = create_npy_header [a + a2, b, c] dtype w MemoryOrder.C from rfl, hsame,
      show (create_npy_header [a, b, c] dtype w MemoryOrder.C).length
        = (headerOf (padDict (rawDict (simpleDescrVal dtype w)
            MemoryOrder.C [a, b, c]))).length from rfl,
      List.drop_left]
  constructor
  · rw [show npy_save_w [a, b, c] dtype w MemoryOrder.C p1
        = headerOf (padDict (rawDict (simpleDescrVal dtype w) MemoryOrder.C [a, b, c]))
          ++ p1 from rfl]
    rw [npy_save_append]
    simp only [hparse]
    rw [if_neg (fun h => h rfl)]
    rw [if_neg (fun h => h rfl)]
    rw [if_neg (fun h => h rfl)]
    rw [if_neg (by simp)]
    rw [if_neg (by simp)]
    simp only [if_true]
    rw [hdrop, List.append_assoc]
  · have hle : (p1 ++ p2).length ≤
        (ParsedDict.mk [w] [dtype] [] [a + a2, b, c]
          MemoryOrder.C).word_sizes.foldl (· + ·) 0
          * (ParsedDict.mk [w] [dtype] [] [a + a2, b, c]
              MemoryOrder.C).shape.foldl (· * ·) 1 := by
      apply le_of_eq
      rw [List.length_append, hp1, hp2]
      simp only [List.foldl_cons, List.foldl_nil]
      ring
    exact npy_load_of _ _ (p1 ++ p2) hpd2 hlen2 hle

/-- Witness: (4,4,2) int32 RowMajor, appended with (4,4,2): the header
length does not change, the file is rewritten in place and loads as
(8,4,2) with both payloads concatenated. -/
theorem append_rowmajor_roundtrip_witness :
    npy_save_append (npy_save_w [4, 4, 2] 'i' 4 MemoryOrder.C (List.replicate 128 'x'))
        'i' 4 MemoryOrder.C [4, 4, 2] (List.replicate 128 'y')
      = .ok (create_npy_header [4 + 4, 4, 2] 'i' 4 MemoryOrder.C
          ++ (List.replicate 128 'x' ++ List.replicate 128 'y'))
    ∧ npy_load (create_npy_header [4 + 4, 4, 2] 'i' 4 MemoryOrder.C
        ++ (List.replicate 128 'x' ++ List.replicate 128 'y'))
      = .ok ⟨[4 + 4, 4, 2], [4], [], MemoryOrder.C,
          List.replicate 128 'x' ++ List.replicate 128 'y'⟩ :=
  append_rowmajor_roundtrip 4 4 2 4 'i' 4 (List.replicate 128 'x')
    (List.replicate 128 'y') (by decide) (by decide) (by decide) (by decide)
    (by decide) (by decide) (by decide) (by decide) (by decide) (by decide)
    (by decide)

theorem append_growth_counterexample :
    npy_save_append (npy_save_w [9, 10000, 1000] 'u' 1 MemoryOrder.C
        (List.replicate 90000000 'a'))
        'u' 1 MemoryOrder.C [1, 10000, 1000] (List.replicate 10000000 'b')
      = .ok (create_npy_header [10, 10000, 1000] 'u' 1 MemoryOrder.C
          ++ (List.replicate 89999984 'a' ++ List.replicate 10000000 'b'))
    ∧ npy_load (create_npy_header [10, 10000, 1000] 'u' 1 MemoryOrder.C
        ++ (List.replicate 89999984 'a' ++ List.replicate 10000000 'b'))
      = .ok ⟨[10, 10000, 1000], [1], [], MemoryOrder.C,
          List.replicate 89999984 'a' ++ List.replicate 10000000 'b'⟩
    ∧ (List.replicate 89999984 'a' ++ List.replicate 10000000 'b').length
      ≠ (List.replicate 90000000 'a' ++ List.replicate 10000000 'b').length := by
  have hpd1 := parse_dict_simpleDescr 'u' 1 MemoryOrder.C [9, 10000, 1000]
    (by decide) (by decide) (by decide) (by decide)
  have hpd2 := parse_dict_simpleDescr 'u' 1 MemoryOrder.C [10, 10000, 1000]
    (by decide) (by decide) (by decide) (by decide)
  have hgen : ∀ q1 q2 : List Char,
      npy_save_append (headerOf (padDict (rawDict (simpleDescrVal 'u' 1)
          MemoryOrder.C [9, 10000, 1000])) ++ q1) 'u' 1 MemoryOrder.C
          [1, 10000, 1000] q2
        = .ok (create_npy_header [10, 10000, 1000] 'u' 1 MemoryOrder.C
            ++ (q1.drop 16 ++ q2)) := by
    intro q1 q2
    have hparse := parse_header_of _ _ q1 hpd1 (by decide)
    have hdropq : (headerOf (padDict (rawDict (simpleDescrVal 'u' 1)
          MemoryOrder.C [9, 10000, 1000])) ++ q1).drop
          (create_npy_header [10, 10000, 1000] 'u' 1 MemoryOrder.C).length
        = q1.drop 16 := by
      rw [show (create_npy_header [10, 10000, 1000] 'u' 1 MemoryOrder.C).length
          = 96 from by decide]
      rw [List.drop_append_eq_append_drop]
      rw [List.drop_eq_nil_of_le (by decide), List.nil_append]
      rw [show (96 : Nat) - (headerOf (padDict (rawDict (simpleDescrVal 'u' 1)
          MemoryOrder.C [9, 10000, 1000]))).length = 16 from by decide]
    rw [npy_save_append]
    simp only [hparse]
    rw [if_neg (fun h => h rfl)]
    rw [if_neg (fun h => h rfl)]
    rw [if_neg (fun h => h rfl)]
    rw [if_neg (by decide)]
    rw [if_neg (by decide)]
    simp only [if_true]
    rw [show (9 : Nat) + 1 = 10 from rfl]
    rw [hdropq]
    rw [List.append_assoc]
  have hrepl : (List.replicate 90000000 'a').drop 16 = List.replicate 89999984 'a' := by
    rw [List.drop_replicate]
  refine ⟨?_, ?_, ?_⟩
  · have h1 := hgen (List.replicate 90000000 'a') (List.replicate 10000000 'b')
    rw [hrepl] at h1
    exact h1
  · have hle : (List.replicate 89999984 'a' ++ List.replicate 10000000 'b').length ≤
        (ParsedDict.mk [1] ['u'] [] [10, 10000, 1000]
          MemoryOrder.C).word_sizes.foldl (· + ·) 0
          * (ParsedDict.mk [1] ['u'] [] [10, 10000, 1000]
              MemoryOrder.C).shape.foldl (· * ·) 1 := by
      rw [List.length_append, List.length_replicate, List.length_replicate]
      simp only [List.foldl_cons, List.foldl_nil]
      norm_num
    exact npy_load_of _ _ _ hpd2 (by decide) hle
  · rw [List.length_append, List.length_replicate, List.length_replicate,
      List.length_append, List.length_replicate, List.length_replicate]
    norm_num

end Cnpypp
